import Mathlib

/-!
Verification of the global escalation engine of the Env-Dashboard repository.

The definitions below are a shallow embedding of the `evaluateGlobal` engine
of the current `ai.js` module (the threshold-based version; the repository
also ships an older revision of the same module).  JavaScript numbers that
carry epoch-millisecond times are modelled as `Int`; sensor values as `ℚ`.
JavaScript truthiness on time fields (`null` and `0` are both falsy) is
modelled explicitly via `truthy`.  The process-wide `EVENTS : Map` is
modelled as a total function from event keys to event states whose default
value is the all-null / zero state created by `getOrInitEvent`; this is
observationally identical because clearing an absent entry writes back the
default state.  The template-string event keys `${deviceId}:offline` and
`${deviceId}:${metric}:anomaly` are modelled by the structured type
`EventKey`; the encoding is faithful because the four metric names contain
no colon, which makes the string encoding injective.  Message formatting is
presentational: rendered sentences are modelled by the `Msg` inductive that
records the catalog key and the exact numeric parameters the code passes to
the catalog, instead of the final formatted string.
-/

namespace EnvDash

/-- A sensor value (JS number).  Modelled as a rational. -/
abbrev Value := ℚ

/-- The four monitored signals of a reading. -/
inductive Metric
  | temperature
  | humidity
  | pressure
  | light
deriving DecidableEq, Repr

/-- One reading row.  Each signal value may be absent or invalid
(`clampNum` returns `null`), and the timestamp may be unresolvable
(`tsToMs` returns `null`); both are folded into `Option` here. -/
structure Row where
  temperature : Option Value := none
  humidity : Option Value := none
  pressure : Option Value := none
  light : Option Value := none
  timestamp : Option Int := none
deriving DecidableEq, Repr

/-- Projection of a row at a named signal (`r?.[key]` followed by
`clampNum`). -/
def rowVal (r : Row) : Metric → Option Value
  | .temperature => r.temperature
  | .humidity => r.humidity
  | .pressure => r.pressure
  | .light => r.light

/-- `tsToMs`: a falsy (absent or zero) timestamp is `null`; a numeric
timestamp below `1e12` is taken to be seconds and scaled to milliseconds. -/
def tsToMs (ts : Option Int) : Option Int :=
  match ts with
  | none => none
  | some t => if t = 0 then none else if t < 1000000000000 then some (t * 1000) else some t

/-- One point of a chronological value series. -/
structure Point where
  ms : Int
  v : Value
deriving DecidableEq, Repr

/-- `series(rows, key)`: keep rows with a valid value and a truthy
resolved timestamp. -/
def series (rows : List Row) (m : Metric) : List Point :=
  rows.filterMap fun r =>
    match rowVal r m, tsToMs r.timestamp with
    | some v, some ms => if ms = 0 then none else some ⟨ms, v⟩
    | _, _ => none

/-- The record returned by `deltaOverWindow` / `lastStepDelta`. -/
structure DeltaInfo where
  d : Value
  fromMs : Int
  toMs : Int
  first : Value
  last : Value
deriving DecidableEq, Repr

/-- `deltaOverWindow(points, fromMs, toMs)`: value change between the
first and last sample inside the window, `null` when fewer than two
samples fall inside it. -/
def deltaOverWindow (points : List Point) (fromMs toMs : Int) : Option DeltaInfo :=
  let within := points.filter fun p => decide (fromMs ≤ p.ms) && decide (p.ms ≤ toMs)
  if within.length < 2 then none
  else
    match within.head?, within.getLast? with
    | some first, some last =>
        some ⟨last.v - first.v, first.ms, last.ms, first.v, last.v⟩
    | _, _ => none

/-- `lastStepDelta(points)`: change between the two most recent samples. -/
def lastStepDelta (points : List Point) : Option DeltaInfo :=
  if points.length < 2 then none
  else
    match points.dropLast.getLast?, points.getLast? with
    | some a, some b => some ⟨b.v - a.v, a.ms, b.ms, a.v, b.v⟩
    | _, _ => none

/-- `deltaFromWindow(points, windowMs)`: window anchored at the most
recent sample. -/
def deltaFromWindow (points : List Point) (windowMs : Int) : Option DeltaInfo :=
  if points.length < 2 then none
  else
    match points.getLast? with
    | some lastP => deltaOverWindow points (lastP.ms - windowMs) lastP.ms
    | none => none

/-- `mean(arr)`; only ever used under a non-emptiness guard. -/
def meanQ (l : List Value) : Value := l.sum / (l.length : Value)

/-- `zAnomaly(points, zTh)`: the z-score dispersion check used only by the
selected-device narrative feed.  The source computes
`sd = sqrt(variance)`, rejects `sd <= 1e-9`, and tests
`|last - mean| / sd > zTh`; both comparisons are squared here, which is
equivalent because every quantity involved is nonnegative. -/
def zAnomaly (points : List Point) (zTh : Value) : Bool :=
  let vals := points.map (·.v)
  if vals.length < 12 then false
  else
    let m := meanQ vals
    let v := meanQ (vals.map fun x => (x - m) * (x - m))
    if v ≤ 1 / 1000000000000000000 then false
    else
      match vals.getLast? with
      | some lastv => decide ((lastv - m) * (lastv - m) > zTh * zTh * v)
      | none => false

/-- Per-event mutable state stored in the `EVENTS` map, as created by
`getOrInitEvent`. -/
structure EventState where
  firstSeenMs : Option Int := none
  lastSeenMs : Option Int := none
  lastFiredStage : Nat := 0
  lastToastMs : Option Int := none
  lastModalMs : Option Int := none
  lastCriticalMs : Option Int := none
  lastAckMs : Option Int := none
deriving DecidableEq, Repr

/-- Structured event key, encoding `${deviceId}:offline` and
`${deviceId}:${metric}:anomaly`. -/
inductive EventKey
  | offline (deviceId : String)
  | anomaly (deviceId : String) (m : Metric)
deriving DecidableEq, Repr

/-- The device id that owns a key. -/
def EventKey.deviceId : EventKey → String
  | .offline i => i
  | .anomaly i _ => i

/-- The `EVENTS` map, as a total function with the `getOrInitEvent`
default. -/
def Store := EventKey → EventState

/-- Write one entry of the store. -/
def storeSet (s : Store) (k : EventKey) (st : EventState) : Store :=
  fun k' => if k' = k then st else s k'

/-- JS truthiness of a nullable millisecond time: `null` and `0` are
falsy. -/
def truthy : Option Int → Bool
  | none => false
  | some t => decide (t ≠ 0)

/-- `x || dflt` on a nullable millisecond time. -/
def orD (o : Option Int) (dflt : Int) : Int :=
  match o with
  | none => dflt
  | some t => if t = 0 then dflt else t

theorem orD_some_ne (t dflt : Int) (h : t ≠ 0) : orD (some t) dflt = t := by
  show (if t = 0 then dflt else t) = t
  rw [if_neg h]

/-- The snooze test on a raw `lastAckMs` field:
`lastAckMs && nowMs - lastAckMs < snoozeMs`. -/
def snoozedAt (ack : Option Int) (nowMs snoozeMs : Int) : Bool :=
  match ack with
  | none => false
  | some a => decide (a ≠ 0) && decide (nowMs - a < snoozeMs)

/-- `isSnoozed(st, nowMs, snoozeMs)`. -/
def isSnoozed (st : EventState) (nowMs snoozeMs : Int) : Bool :=
  snoozedAt st.lastAckMs nowMs snoozeMs

/-- `acknowledgeEvent` applied through the `ackEventKey` argument: a falsy
key is ignored, otherwise the entry is created if needed and its
`lastAckMs` set. -/
def applyAck (s : Store) (k? : Option EventKey) (nowMs : Int) : Store :=
  match k? with
  | none => s
  | some k => storeSet s k { s k with lastAckMs := some nowMs }

/-- Display language. -/
inductive Lang
  | en
  | jp
deriving DecidableEq, Repr

/-- The `langMode` input. -/
inductive LangMode
  | auto
  | en
  | jp
deriving DecidableEq, Repr

/-- `detectLang`; the browser locale consulted in `auto` mode is passed
explicitly. -/
def detectLang (lm : LangMode) (browser : Lang) : Lang :=
  match lm with
  | .en => .en
  | .jp => .jp
  | .auto => browser

/-- A fully parameterised catalog message.  Rendering to a sentence is
purely presentational and is not modelled; each constructor records the
catalog entry and the exact arguments the code passes to it. -/
inductive Msg
  | offlineWarn (lang : Lang) (name : String) (sec : Int)
  | offlineAlert (lang : Lang) (name : String) (m s : Int)
  | spike (lang : Lang) (name : String) (metric : Metric) (delta : DeltaInfo)
  | persist (lang : Lang) (name : String) (metric : Metric) (mins : Int)
  | invalid
deriving DecidableEq, Repr

/-- Severity levels appearing on candidates and notifications. -/
inductive Level
  | warn
  | alert
  | modal
  | critical
deriving DecidableEq, Repr

/-- `buildOfflineEvent(deviceName, ageMs, alertMs, L)`: the message part.
`Math.floor` is `Int.fdiv`; the JS `%` (sign of the dividend) is
`Int.tmod`.  The `level` field of the returned object is never read by the
engine and is dropped. -/
def buildOfflineEvent (name : String) (ageMs alertMs : Int) (L : Lang) : Msg :=
  let sec := ageMs.fdiv 1000
  let m := sec.fdiv 60
  let s := sec.tmod 60
  if ageMs ≥ alertMs then Msg.offlineAlert L name m s else Msg.offlineWarn L name sec

/-- Tag on a candidate's `metric` field: the string `"offline"` or a
signal name. -/
inductive MetricTag
  | offline
  | signal (m : Metric)
deriving DecidableEq, Repr

/-- One escalation candidate collected during a cycle. -/
structure Candidate where
  stage : Nat
  level : Level
  eventKey : EventKey
  text : Msg
  deviceName : String
  metric : MetricTag
  seenSinceMs : Option Int
deriving DecidableEq, Repr

/-- The hard anomaly thresholds table `TH`. -/
structure Thresh where
  spike : Value
  slow5m : Value
  slow10m : Value

/-- `TH` values per metric. -/
def TH : Metric → Thresh
  | .temperature => ⟨3, 3, 4⟩
  | .humidity => ⟨12, 10, 15⟩
  | .pressure => ⟨2, 2, 3⟩
  | .light => ⟨1500, 1200, 2000⟩

/-- `WIN_5M`. -/
def WIN5M : Int := 5 * 60 * 1000

/-- `WIN_10M`. -/
def WIN10M : Int := 10 * 60 * 1000

/-- One device snapshot supplied to the engine.  A missing `deviceId`
is the empty string (`dev?.deviceId || ""`); a non-numeric
`lastDataMs` is `none`. -/
structure Device where
  deviceId : String
  deviceName : String := ""
  rows : List Row := []
  lastDataMs : Option Int := none
deriving DecidableEq, Repr

/-- `dev?.deviceName || deviceId || "Device"`. -/
def effectiveName (d : Device) : String :=
  if d.deviceName ≠ "" then d.deviceName
  else if d.deviceId ≠ "" then d.deviceId
  else "Device"

/-- The full input record of `evaluateGlobal`.  The caller supplies every
field (the JS defaults are irrelevant to the claims). -/
structure GlobalInput where
  devices : List Device
  nowMs : Int
  langMode : LangMode := .en
  warnMs : Int := 45000
  alertMs : Int := 5 * 60 * 1000
  repeatWindowMs : Int := 10 * 60 * 1000
  persistWindowMs : Int := 30 * 60 * 1000
  modalSnoozeMs : Int := 5 * 60 * 1000
  ackEventKey : Option EventKey := none
deriving DecidableEq, Repr

/-- The scalar tuning parameters of one cycle (everything of the input
except the device list, the language and the acknowledgement). -/
structure Cfg where
  nowMs : Int
  warnMs : Int
  alertMs : Int
  repeatWindowMs : Int
  persistWindowMs : Int
  modalSnoozeMs : Int
deriving DecidableEq, Repr

/-- The scalar parameters of an input. -/
def GlobalInput.cfg (inp : GlobalInput) : Cfg :=
  ⟨inp.nowMs, inp.warnMs, inp.alertMs, inp.repeatWindowMs, inp.persistWindowMs,
    inp.modalSnoozeMs⟩

/-- The shared bookkeeping on an active observation:
`st.lastSeenMs = nowMs; if (!st.firstSeenMs) st.firstSeenMs = nowMs`. -/
def bookkeep (nowMs : Int) (st : EventState) : EventState :=
  { st with
    lastSeenMs := some nowMs
    firstSeenMs := if truthy st.firstSeenMs then st.firstSeenMs else some nowMs }

/-- The clear performed on confirmed recovery / quiet expiry:
`firstSeenMs`, `lastSeenMs` to `null`, `lastFiredStage` to `0`
(`lastAckMs` and the unused fields are preserved). -/
def clearEv (st : EventState) : EventState :=
  { st with firstSeenMs := none, lastSeenMs := none, lastFiredStage := 0 }

/-- A per-key detection step: from the key's current state to its new
state plus an optional candidate. -/
abbrev StepFun := EventState → EventState × Option Candidate

/-- Offline handling when `lastDataMs` is falsy: treat as maximally
offline (`age = alertMs + 1`) at modal severity. -/
def offlineNoDataF (cfg : Cfg) (L : Lang) (name : String) (k : EventKey) : StepFun :=
  fun st =>
    let st1 := bookkeep cfg.nowMs st
    let cand :=
      if isSnoozed st1 cfg.nowMs cfg.modalSnoozeMs then none
      else
        some { stage := 2, level := .modal, eventKey := k
               text := buildOfflineEvent name (cfg.alertMs + 1) cfg.alertMs L
               deviceName := name, metric := .offline, seenSinceMs := st1.firstSeenMs }
    (st1, cand)

/-- Offline handling when `age = nowMs - lastDataMs >= warnMs`:
stage 2 / modal at or past the alert threshold, stage 1 / warn before
it. -/
def offlineAgedF (cfg : Cfg) (L : Lang) (name : String) (k : EventKey)
    (age : Int) : StepFun :=
  fun st =>
    let st1 := bookkeep cfg.nowMs st
    let cand :=
      if isSnoozed st1 cfg.nowMs cfg.modalSnoozeMs then none
      else
        let text := buildOfflineEvent name age cfg.alertMs L
        if age ≥ cfg.alertMs then
          some { stage := 2, level := .modal, eventKey := k, text := text
                 deviceName := name, metric := .offline, seenSinceMs := st1.firstSeenMs }
        else
          some { stage := 1, level := .warn, eventKey := k, text := text
                 deviceName := name, metric := .offline, seenSinceMs := st1.firstSeenMs }
    (st1, cand)

/-- Offline handling when `age < warnMs`: the device has recovered, clear
any existing offline event. -/
def offlineClearF : StepFun :=
  fun st => (clearEv st, none)

/-- Was a delta magnitude at or past its threshold?
(`!!(d && Math.abs(d.d) >= th)`.) -/
def hitB (d : Option DeltaInfo) (th : Value) : Bool :=
  match d with
  | some x => decide (|x.d| ≥ th)
  | none => false

/-- `pts.length >= 10 ? deltaFromWindow(pts, WIN_5M) : null`. -/
def d5Of (pts : List Point) : Option DeltaInfo :=
  if 10 ≤ pts.length then deltaFromWindow pts WIN5M else none

/-- `pts.length >= 10 ? deltaFromWindow(pts, WIN_10M) : null`. -/
def d10Of (pts : List Point) : Option DeltaInfo :=
  if 10 ≤ pts.length then deltaFromWindow pts WIN10M else none

/-- Everything the anomaly detector reads from a point series: the
sparse-data guard, the single-step delta and the two windowed deltas. -/
def anomalySig (pts : List Point) :
    Bool × Option DeltaInfo × Option DeltaInfo × Option DeltaInfo :=
  (decide (pts.length < 3), lastStepDelta pts, d5Of pts, d10Of pts)

/-- `seenFor = nowMs - (st.firstSeenMs || nowMs)` on the booked state. -/
def seenForOf (cfg : Cfg) (st1 : EventState) : Int :=
  cfg.nowMs - orD st1.firstSeenMs cfg.nowMs

/-- The severity stage of an active anomaly: stage 2 (modal) by default,
stage 3 (critical) once it has persisted past the persist window. -/
def stageOf (cfg : Cfg) (st1 : EventState) : Nat :=
  if seenForOf cfg st1 ≥ cfg.persistWindowMs then 3 else 2

/-- The staging and candidate construction on an active, unsnoozed
anomaly observation (`dUse` is the delta chosen for reporting, `st1` the
already-booked state). -/
def anomalyFire (cfg : Cfg) (L : Lang) (name : String) (k : EventKey) (m : Metric)
    (dUse : Option DeltaInfo) (st1 : EventState) : EventState × Option Candidate :=
  let text :=
    match dUse with
    | some dd => Msg.spike L name m dd
    | none => Msg.invalid
  let seenFor := seenForOf cfg st1
  let stage : Nat := stageOf cfg st1
  let level : Level := if seenFor ≥ cfg.persistWindowMs then .critical else .modal
  let st2 :=
    if stage > st1.lastFiredStage then { st1 with lastFiredStage := stage } else st1
  let cand :=
    if stage = 3 then
      some { stage := stage, level := level, eventKey := k
             text := Msg.persist L name m (max 30 (seenFor.fdiv 60000))
             deviceName := name, metric := .signal m, seenSinceMs := st2.firstSeenMs }
    else
      some { stage := stage, level := level, eventKey := k, text := text
             deviceName := name, metric := .signal m, seenSinceMs := st2.firstSeenMs }
  (st2, cand)

/-- `st.lastSeenMs ? nowMs - st.lastSeenMs : 0` (a falsy stored time
yields zero). -/
def quietForOf (cfg : Cfg) (st : EventState) : Int :=
  match st.lastSeenMs with
  | some ls => if ls = 0 then (0 : Int) else cfg.nowMs - ls
  | none => 0

/-- The quiet-time clear decision on an inactive observation. -/
def anomalyQuiet (cfg : Cfg) (st : EventState) : EventState × Option Candidate :=
  if quietForOf cfg st > cfg.repeatWindowMs then (clearEv st, none) else (st, none)

/-- The delta chosen for the report: spike first, then the 5-minute
window, then the 10-minute window (falling back to the step). -/
def pickDelta (spikeHit slow5Hit : Bool)
    (step d5 d10 : Option DeltaInfo) : Option DeltaInfo :=
  if spikeHit then step
  else if slow5Hit then d5
  else match d10 with
    | some _ => d10
    | none => step

/-- `spikeHit || slow5Hit || slow10Hit`, from the signature. -/
def activeOf (m : Metric)
    (sig : Bool × Option DeltaInfo × Option DeltaInfo × Option DeltaInfo) : Bool :=
  hitB sig.2.1 (TH m).spike || hitB sig.2.2.1 (TH m).slow5m || hitB sig.2.2.2 (TH m).slow10m

/-- The anomaly detector's body, as a function of the series signature
(the code reads the series only through these four quantities). -/
def anomalyCore (cfg : Cfg) (L : Lang) (name : String) (k : EventKey) (m : Metric)
    (sig : Bool × Option DeltaInfo × Option DeltaInfo × Option DeltaInfo) : StepFun :=
  fun st =>
    if sig.1 then (st, none)
    else if !(activeOf m sig) then anomalyQuiet cfg st
    else
      let st1 := bookkeep cfg.nowMs st
      if isSnoozed st1 cfg.nowMs cfg.modalSnoozeMs then (st1, none)
      else
        anomalyFire cfg L name k m
          (pickDelta (hitB sig.2.1 (TH m).spike) (hitB sig.2.2.1 (TH m).slow5m)
            sig.2.1 sig.2.2.1 sig.2.2.2) st1

/-- Threshold-based anomaly detection for one device and one metric,
mirroring the body of the metric loop in `evaluateGlobal`. -/
def anomalyF (cfg : Cfg) (L : Lang) (name : String) (k : EventKey)
    (pts : List Point) (m : Metric) : StepFun :=
  anomalyCore cfg L name k m (anomalySig pts)

/-- The ordered list of metrics scanned for each device. -/
def metricOrder : List Metric := [.temperature, .humidity, .pressure, .light]

/-- The detection steps (key plus step function) one device contributes,
in program order.  When `lastDataMs` is falsy the offline branch
`continue`s past anomaly detection. -/
def deviceSteps (cfg : Cfg) (L : Lang) (d : Device) : List (EventKey × StepFun) :=
  let name := effectiveName d
  let offKey := EventKey.offline d.deviceId
  if !truthy d.lastDataMs then
    [(offKey, offlineNoDataF cfg L name offKey)]
  else
    let age := cfg.nowMs - (d.lastDataMs.getD 0)
    let offStep :=
      if age ≥ cfg.warnMs then offlineAgedF cfg L name offKey age else offlineClearF
    (offKey, offStep) ::
      metricOrder.map fun m =>
        (EventKey.anomaly d.deviceId m,
          anomalyF cfg L name (EventKey.anomaly d.deviceId m) (series d.rows m) m)

/-- Run a list of detection steps over the store, collecting candidates
in order. -/
def runSteps : List (EventKey × StepFun) → Store → Store × List Candidate
  | [], s => (s, [])
  | (k, f) :: rest, s =>
      let r := f (s k)
      let out := runSteps rest (storeSet s k r.1)
      (out.1, r.2.toList ++ out.2)

/-- All steps of one evaluation cycle, in device order. -/
def allSteps (inp : GlobalInput) (L : Lang) : List (EventKey × StepFun) :=
  (inp.devices.map (deviceSteps inp.cfg L)).flatten

/-- The candidate sort key used for the tie-break:
`(c.seenSinceMs || 0)`. -/
def seenKey (c : Candidate) : Int := c.seenSinceMs.getD 0

/-- The strict "ranks higher" comparison of the descending sort:
`b.stage - a.stage`, then `(b.seenSinceMs || 0) - (a.seenSinceMs || 0)`. -/
def lexGtB (a b : Candidate) : Bool :=
  decide (b.stage < a.stage) || (decide (a.stage = b.stage) && decide (seenKey b < seenKey a))

/-- `candidates.sort(...)[0]`: the first element of the stable descending
sort, i.e. the first candidate that is maximal under the
`(stage, seenSinceMs || 0)` lexicographic order. -/
def topCandidate : List Candidate → Option Candidate
  | [] => none
  | c :: cs => some (cs.foldl (fun best x => if lexGtB x best then x else best) c)

/-- One emitted notification `{level, text, eventKey}`. -/
structure Notif where
  level : Level
  text : Msg
  eventKey : EventKey
deriving DecidableEq, Repr

/-- The result record of `evaluateGlobal`. -/
structure GlobalResult where
  toast : Option Notif := none
  modal : Option Notif := none
  lang : Lang
deriving DecidableEq, Repr

/-- The final dispatch on the sorted candidates: stage 3 becomes a
critical modal, everything else a plain modal (this version of the
dispatch has no toast branch). -/
def arbitrate (L : Lang) (cands : List Candidate) : GlobalResult :=
  match topCandidate cands with
  | none => { toast := none, modal := none, lang := L }
  | some top =>
      if top.stage = 3 then
        { toast := none, modal := some ⟨.critical, top.text, top.eventKey⟩, lang := L }
      else
        { toast := none, modal := some ⟨.modal, top.text, top.eventKey⟩, lang := L }

/-- Apply the optional acknowledgement, then run every device's detection
steps over the store. -/
def runGlobal (inp : GlobalInput) (L : Lang) (s : Store) : Store × List Candidate :=
  runSteps (allSteps inp L) (applyAck s inp.ackEventKey inp.nowMs)

/-- `AI.evaluateGlobal(input)` over an explicit store: returns the result
record and the updated store. -/
def evaluateGlobal (inp : GlobalInput) (browser : Lang) (s : Store) :
    GlobalResult × Store :=
  let L := detectLang inp.langMode browser
  let out := runGlobal inp L s
  (arbitrate L out.2, out.1)

/-- The candidate list one evaluation cycle collects. -/
def candidatesOf (inp : GlobalInput) (browser : Lang) (s : Store) : List Candidate :=
  (runGlobal inp (detectLang inp.langMode browser) s).2

/-! ### Basic lemmas about the store and the event-state helpers -/

theorem storeSet_same (s : Store) (k : EventKey) (st : EventState) :
    storeSet s k st k = st := by
  simp [storeSet]

theorem storeSet_other {k k' : EventKey} (s : Store) (st : EventState) (h : k' ≠ k) :
    storeSet s k st k' = s k' := by
  simp [storeSet, h]

theorem storeSet_self (s : Store) (k : EventKey) : storeSet s k (s k) = s := by
  funext k'
  unfold storeSet
  split
  · rename_i h
    rw [h]
  · rfl

theorem bookkeep_lastAck (n : Int) (st : EventState) :
    (bookkeep n st).lastAckMs = st.lastAckMs := rfl

theorem bookkeep_lastFired (n : Int) (st : EventState) :
    (bookkeep n st).lastFiredStage = st.lastFiredStage := rfl

theorem bookkeep_lastSeen (n : Int) (st : EventState) :
    (bookkeep n st).lastSeenMs = some n := rfl

/-- Re-applying the first-seen rule to an already booked first-seen field
changes nothing. -/
theorem bookkeep_firstSeen_stable (n : Int) (st : EventState) :
    (if truthy (bookkeep n st).firstSeenMs then (bookkeep n st).firstSeenMs else some n) =
      (bookkeep n st).firstSeenMs := by
  unfold bookkeep truthy
  cases h : st.firstSeenMs with
  | none =>
      simp only [h]
      by_cases hn : n = 0 <;> simp [hn]
  | some t =>
      simp only [h]
      by_cases ht : t = 0
      · subst ht
        by_cases hn : n = 0 <;> simp [hn]
      · simp [ht]

theorem bookkeep_firstSeen (n : Int) (st : EventState) :
    (bookkeep n st).firstSeenMs =
      (if truthy st.firstSeenMs then st.firstSeenMs else some n) := rfl

theorem bookkeep_idem (n : Int) (st : EventState) :
    bookkeep n (bookkeep n st) = bookkeep n st := by
  obtain ⟨fs, ls, lf, lt, lm, lc, la⟩ := st
  show EventState.mk
      (if truthy (if truthy fs then fs else some n) then (if truthy fs then fs else some n)
       else some n) (some n) lf lt lm lc la =
    EventState.mk (if truthy fs then fs else some n) (some n) lf lt lm lc la
  congr 1
  exact bookkeep_firstSeen_stable n ⟨fs, ls, lf, lt, lm, lc, la⟩

/-- `bookkeep` ignores `lastFiredStage`. -/
theorem bookkeep_setStage (n : Int) (st : EventState) (x : Nat) :
    bookkeep n { st with lastFiredStage := x } = { bookkeep n st with lastFiredStage := x } := by
  cases st
  rfl

theorem clearEv_idem (st : EventState) : clearEv (clearEv st) = clearEv st := by
  cases st
  rfl

theorem clearEv_lastAck (st : EventState) : (clearEv st).lastAckMs = st.lastAckMs := rfl

theorem applyAck_none (s : Store) (n : Int) : applyAck s none n = s := rfl

theorem applyAck_lastFired (s : Store) (a : Option EventKey) (n : Int) (k : EventKey) :
    ((applyAck s a n) k).lastFiredStage = (s k).lastFiredStage := by
  cases a with
  | none => rfl
  | some ak =>
      unfold applyAck storeSet
      by_cases h : k = ak <;> simp [h]

theorem applyAck_firstSeen (s : Store) (a : Option EventKey) (n : Int) (k : EventKey) :
    ((applyAck s a n) k).firstSeenMs = (s k).firstSeenMs := by
  cases a with
  | none => rfl
  | some ak =>
      unfold applyAck storeSet
      by_cases h : k = ak <;> simp [h]

/-! ### Per-step properties and their lifting over `runSteps` -/

/-- The step never changes the acknowledgement time of its key. -/
def PreservesAck (f : StepFun) : Prop :=
  ∀ st, ((f st).1).lastAckMs = st.lastAckMs

/-- Any candidate the step produces carries the given event key. -/
def KeyedCand (k : EventKey) (f : StepFun) : Prop :=
  ∀ st c, (f st).2 = some c → c.eventKey = k

/-- A snoozed state produces no candidate. -/
def SnoozeSilent (nowMs snoozeMs : Int) (f : StepFun) : Prop :=
  ∀ st, snoozedAt st.lastAckMs nowMs snoozeMs = true → (f st).2 = none

/-- Running the step on its own output state is a no-op with the same
candidate. -/
def StepIdem (f : StepFun) : Prop :=
  ∀ st, f ((f st).1) = f st

/-- The step either keeps `lastFiredStage` at least as high, or clears the
event (stage 0, `firstSeenMs` null). -/
def StageMono (f : StepFun) : Prop :=
  ∀ st, st.lastFiredStage ≤ ((f st).1).lastFiredStage ∨
    (((f st).1).lastFiredStage = 0 ∧ ((f st).1).firstSeenMs = none)

/-- The keys touched by a step list. -/
def stepKeys (steps : List (EventKey × StepFun)) : List EventKey :=
  steps.map Prod.fst

theorem stepKeys_cons (p : EventKey × StepFun) (rest : List (EventKey × StepFun)) :
    stepKeys (p :: rest) = p.1 :: stepKeys rest := rfl

theorem stepKeys_mem_of_mem {steps : List (EventKey × StepFun)}
    {p : EventKey × StepFun} (h : p ∈ steps) : p.1 ∈ stepKeys steps :=
  List.mem_map_of_mem Prod.fst h

theorem runSteps_store_notin {steps : List (EventKey × StepFun)} {k : EventKey}
    (h : k ∉ stepKeys steps) : ∀ s : Store, (runSteps steps s).1 k = s k := by
  induction steps with
  | nil => intro s; rfl
  | cons p rest ih =>
      intro s
      obtain ⟨k', f⟩ := p
      have hk' : k ≠ k' := by
        intro he
        exact h (by simp [stepKeys, he])
      have hr : k ∉ stepKeys rest := fun hm => h (by simp [stepKeys] at hm ⊢; exact .inr hm)
      simp only [runSteps]
      rw [ih hr, storeSet_other _ _ hk']

theorem runSteps_store_at {steps : List (EventKey × StepFun)} {k : EventKey} {f : StepFun}
    (hnd : (stepKeys steps).Nodup) (hkf : (k, f) ∈ steps) :
    ∀ s : Store, (runSteps steps s).1 k = (f (s k)).1 := by
  induction steps with
  | nil => cases hkf
  | cons p rest ih =>
      intro s
      obtain ⟨k', f'⟩ := p
      rw [stepKeys_cons] at hnd
      have hnd' := List.nodup_cons.mp hnd
      rcases List.mem_cons.mp hkf with hhd | htl
      · injection hhd with hk hf
        have hnotin : k ∉ stepKeys rest := hk.symm ▸ hnd'.1
        simp only [runSteps]
        rw [runSteps_store_notin hnotin, ← hk, ← hf, storeSet_same]
      · have hkk' : k ≠ k' := by
          intro he
          apply hnd'.1
          rw [← he]
          exact @stepKeys_mem_of_mem rest (k, f) htl
        simp only [runSteps]
        rw [ih hnd'.2 htl, storeSet_other _ _ hkk']

theorem runSteps_ack_preserved {steps : List (EventKey × StepFun)}
    (hack : ∀ p ∈ steps, PreservesAck p.2) (k : EventKey) :
    ∀ s : Store, ((runSteps steps s).1 k).lastAckMs = (s k).lastAckMs := by
  induction steps with
  | nil => intro s; rfl
  | cons p rest ih =>
      intro s
      obtain ⟨k', f'⟩ := p
      have hrest : ∀ q ∈ rest, PreservesAck q.2 := fun q hq => hack q (List.mem_cons_of_mem _ hq)
      simp only [runSteps]
      rw [ih hrest]
      by_cases h : k = k'
      · subst h
        rw [storeSet_same]
        exact hack (k, f') (List.mem_cons_self _ _) (s k)
      · rw [storeSet_other _ _ h]

/-- A candidate found in the output arises at the key's own step: if the
step at `(k, f)` yields a candidate satisfying `P` for every state whose
acknowledgement field matches the initial one, some output candidate
satisfies `P`. -/
theorem runSteps_mem_cand {steps : List (EventKey × StepFun)} {k : EventKey} {f : StepFun}
    {P : Candidate → Prop}
    (hack : ∀ p ∈ steps, PreservesAck p.2) (hkf : (k, f) ∈ steps) :
    ∀ s : Store,
      (∀ st, st.lastAckMs = (s k).lastAckMs → ∃ c, (f st).2 = some c ∧ P c) →
      ∃ c ∈ (runSteps steps s).2, P c := by
  induction steps with
  | nil => cases hkf
  | cons p rest ih =>
      intro s hout
      obtain ⟨k', f'⟩ := p
      rcases List.mem_cons.mp hkf with hhd | htl
      · injection hhd with hk hf
        obtain ⟨c, hc, hPc⟩ := hout (s k) rfl
        refine ⟨c, ?_, hPc⟩
        simp only [runSteps]
        rw [← hk, ← hf] at *
        rw [hc]
        simp
      · have hrest : ∀ q ∈ rest, PreservesAck q.2 :=
          fun q hq => hack q (List.mem_cons_of_mem _ hq)
        have hout' : ∀ st, st.lastAckMs = ((storeSet s k' ((f' (s k')).1)) k).lastAckMs →
            ∃ c, (f st).2 = some c ∧ P c := by
          intro st hst
          apply hout
          rw [hst]
          by_cases h : k = k'
          · subst h
            rw [storeSet_same]
            exact hack (k, f') (List.mem_cons_self _ _) (s k)
          · rw [storeSet_other _ _ h]
        obtain ⟨c, hcmem, hPc⟩ := ih hrest htl _ hout'
        refine ⟨c, ?_, hPc⟩
        simp only [runSteps]
        exact List.mem_append_right _ hcmem

/-- While an event key is snoozed, no candidate for it is produced. -/
theorem runSteps_snoozed_no_cand {steps : List (EventKey × StepFun)} {k : EventKey}
    {nowMs snoozeMs : Int}
    (hack : ∀ p ∈ steps, PreservesAck p.2)
    (hkey : ∀ p ∈ steps, KeyedCand p.1 p.2)
    (hsil : ∀ p ∈ steps, SnoozeSilent nowMs snoozeMs p.2) :
    ∀ s : Store, snoozedAt ((s k).lastAckMs) nowMs snoozeMs = true →
      ∀ c ∈ (runSteps steps s).2, c.eventKey ≠ k := by
  induction steps with
  | nil => intro s _ c hc; cases hc
  | cons p rest ih =>
      intro s hsn c hc
      obtain ⟨k', f'⟩ := p
      have hrest : ∀ q ∈ rest, PreservesAck q.2 :=
        fun q hq => hack q (List.mem_cons_of_mem _ hq)
      have hkeyrest : ∀ q ∈ rest, KeyedCand q.1 q.2 :=
        fun q hq => hkey q (List.mem_cons_of_mem _ hq)
      have hsilrest : ∀ q ∈ rest, SnoozeSilent nowMs snoozeMs q.2 :=
        fun q hq => hsil q (List.mem_cons_of_mem _ hq)
      have hsn' : snoozedAt (((storeSet s k' ((f' (s k')).1)) k).lastAckMs) nowMs snoozeMs
          = true := by
        by_cases h : k = k'
        · subst h
          rw [storeSet_same, hack (k, f') (List.mem_cons_self _ _) (s k)]
          exact hsn
        · rw [storeSet_other _ _ h]
          exact hsn
      simp only [runSteps] at hc
      rcases List.mem_append.mp hc with hhd | htl
      · have hfc : (f' (s k')).2 = some c := by
          cases hx : (f' (s k')).2 with
          | none => rw [hx] at hhd; cases hhd
          | some c' =>
              rw [hx] at hhd
              simp at hhd
              exact congrArg some hhd.symm
        by_cases h : k' = k
        · subst h
          rw [hsil (k', f') (List.mem_cons_self _ _) (s k') hsn] at hfc
          cases hfc
        · intro he
          have hck : c.eventKey = k' := hkey (k', f') (List.mem_cons_self _ _) _ c hfc
          exact h (hck.symm.trans he)
      · exact ih hrest hkeyrest hsilrest _ hsn' c htl

/-- Re-running an idempotent step list from its own output store changes
nothing and collects the same candidates. -/
theorem runSteps_idem {steps : List (EventKey × StepFun)}
    (hnd : (stepKeys steps).Nodup) (hidem : ∀ p ∈ steps, StepIdem p.2) :
    ∀ s : Store, runSteps steps ((runSteps steps s).1) = runSteps steps s := by
  induction steps with
  | nil => intro s; rfl
  | cons p rest ih =>
      intro s
      obtain ⟨k, f⟩ := p
      rw [stepKeys_cons] at hnd
      have hnd' := List.nodup_cons.mp hnd
      have hrest : ∀ q ∈ rest, StepIdem q.2 :=
        fun q hq => hidem q (List.mem_cons_of_mem _ hq)
      have hk1 : (runSteps rest (storeSet s k ((f (s k)).1))).1 k = (f (s k)).1 := by
        rw [runSteps_store_notin hnd'.1, storeSet_same]
      have hset : ∀ t : Store, t k = (f (s k)).1 → storeSet t k ((f (s k)).1) = t := by
        intro t ht
        rw [← ht]
        exact storeSet_self t k
      have hff : f ((f (s k)).1) = f (s k) :=
        hidem (k, f) (List.mem_cons_self _ _) (s k)
      simp only [runSteps]
      rw [hk1, hff, hset _ hk1, ih hnd'.2 hrest (storeSet s k ((f (s k)).1))]

/-- Over one run of a key-distinct step list, each key's
`lastFiredStage` either does not decrease or the entry is cleared. -/
theorem runSteps_stageMono {steps : List (EventKey × StepFun)}
    (hnd : (stepKeys steps).Nodup) (hsm : ∀ p ∈ steps, StageMono p.2)
    (k : EventKey) :
    ∀ s : Store,
      (s k).lastFiredStage ≤ ((runSteps steps s).1 k).lastFiredStage ∨
      (((runSteps steps s).1 k).lastFiredStage = 0 ∧
        ((runSteps steps s).1 k).firstSeenMs = none) := by
  intro s
  by_cases hin : k ∈ stepKeys steps
  · obtain ⟨p, hp, hpk⟩ := List.mem_map.mp hin
    obtain ⟨k', f⟩ := p
    have hp' : (k, f) ∈ steps := by
      rw [← hpk]
      exact hp
    rw [runSteps_store_at hnd hp']
    exact hsm (k, f) hp' (s k)
  · rw [runSteps_store_notin hin]
    exact .inl le_rfl

/-! ### Properties of the individual detection steps -/

section StepProps

variable (cfg : Cfg) (L : Lang) (name : String) (k : EventKey) (m : Metric)

theorem anomalyFire_fst (dUse : Option DeltaInfo) (st1 : EventState) :
    (anomalyFire cfg L name k m dUse st1).1 =
      if stageOf cfg st1 > st1.lastFiredStage then
        { st1 with lastFiredStage := stageOf cfg st1 }
      else st1 := rfl

theorem anomalyFire_firstSeen (dUse : Option DeltaInfo) (st1 : EventState) :
    ((anomalyFire cfg L name k m dUse st1).1).firstSeenMs = st1.firstSeenMs := by
  rw [anomalyFire_fst]
  split <;> rfl

theorem anomalyFire_lastSeen (dUse : Option DeltaInfo) (st1 : EventState) :
    ((anomalyFire cfg L name k m dUse st1).1).lastSeenMs = st1.lastSeenMs := by
  rw [anomalyFire_fst]
  split <;> rfl

theorem anomalyFire_lastAck (dUse : Option DeltaInfo) (st1 : EventState) :
    ((anomalyFire cfg L name k m dUse st1).1).lastAckMs = st1.lastAckMs := by
  rw [anomalyFire_fst]
  split <;> rfl

theorem anomalyFire_lf (dUse : Option DeltaInfo) (st1 : EventState) :
    st1.lastFiredStage ≤ ((anomalyFire cfg L name k m dUse st1).1).lastFiredStage := by
  rw [anomalyFire_fst]
  split
  · rename_i h
    show st1.lastFiredStage ≤ stageOf cfg st1
    omega
  · exact le_rfl

theorem anomalyFire_lf_ge_stage (dUse : Option DeltaInfo) (st1 : EventState) :
    stageOf cfg st1 ≤ ((anomalyFire cfg L name k m dUse st1).1).lastFiredStage := by
  rw [anomalyFire_fst]
  split
  · exact le_rfl
  · rename_i h
    omega

theorem anomalyFire_snd (dUse : Option DeltaInfo) (st1 : EventState) :
    ∃ c, (anomalyFire cfg L name k m dUse st1).2 = some c ∧
      c.eventKey = k ∧ c.stage = stageOf cfg st1 ∧ c.seenSinceMs = st1.firstSeenMs := by
  have hfs : ((anomalyFire cfg L name k m dUse st1).1).firstSeenMs = st1.firstSeenMs :=
    anomalyFire_firstSeen cfg L name k m dUse st1
  unfold anomalyFire at hfs ⊢
  dsimp only
  split
  · exact ⟨_, rfl, rfl, rfl, hfs⟩
  · exact ⟨_, rfl, rfl, rfl, hfs⟩

theorem stageOf_ge_two (st1 : EventState) : 2 ≤ stageOf cfg st1 := by
  unfold stageOf
  split <;> omega

/-- A state whose first-seen field agrees with the booked one and whose
fired stage is already at least the computed stage is a fixpoint of the
staging, and yields the same candidate. -/
theorem anomalyFire_stable (dUse : Option DeltaInfo) (st1 st1' : EventState)
    (h1 : st1'.firstSeenMs = st1.firstSeenMs)
    (h2 : stageOf cfg st1 ≤ st1'.lastFiredStage) :
    anomalyFire cfg L name k m dUse st1' =
      (st1', (anomalyFire cfg L name k m dUse st1).2) := by
  have hseen : seenForOf cfg st1' = seenForOf cfg st1 := by
    unfold seenForOf
    rw [h1]
  have hstage : stageOf cfg st1' = stageOf cfg st1 := by
    unfold stageOf
    rw [hseen]
  unfold anomalyFire
  dsimp only
  rw [hseen, hstage, if_neg (by omega), h1]
  have hfs : (if stageOf cfg st1 > st1.lastFiredStage then
      { st1 with lastFiredStage := stageOf cfg st1 } else st1).firstSeenMs
      = st1.firstSeenMs := by
    split <;> rfl
  rw [hfs]

theorem anomalyFire_idem (dUse : Option DeltaInfo) (st1 : EventState) :
    anomalyFire cfg L name k m dUse ((anomalyFire cfg L name k m dUse st1).1) =
      anomalyFire cfg L name k m dUse st1 := by
  rw [anomalyFire_stable cfg L name k m dUse st1 _
    (anomalyFire_firstSeen cfg L name k m dUse st1)
    (anomalyFire_lf_ge_stage cfg L name k m dUse st1)]

theorem anomalyQuiet_snd (st : EventState) : (anomalyQuiet cfg st).2 = none := by
  unfold anomalyQuiet
  split <;> rfl

theorem anomalyQuiet_cases (st : EventState) :
    anomalyQuiet cfg st = (st, none) ∨ anomalyQuiet cfg st = (clearEv st, none) := by
  unfold anomalyQuiet
  split
  · exact .inr rfl
  · exact .inl rfl

theorem quietForOf_clear (st : EventState) : quietForOf cfg (clearEv st) = 0 := rfl

theorem anomalyQuiet_idem (st : EventState) :
    anomalyQuiet cfg ((anomalyQuiet cfg st).1) = anomalyQuiet cfg st := by
  rcases anomalyQuiet_cases cfg st with h | h <;> rw [h]
  · rw [h]
  · show anomalyQuiet cfg (clearEv st) = (clearEv st, none)
    unfold anomalyQuiet
    rw [quietForOf_clear]
    split
    · rw [clearEv_idem]
    · rfl

theorem bookkeep_anomalyFire (dUse : Option DeltaInfo) (st : EventState) :
    bookkeep cfg.nowMs ((anomalyFire cfg L name k m dUse (bookkeep cfg.nowMs st)).1) =
      (anomalyFire cfg L name k m dUse (bookkeep cfg.nowMs st)).1 := by
  rw [anomalyFire_fst]
  split
  · rw [bookkeep_setStage, bookkeep_idem]
  · rw [bookkeep_idem]

theorem offlineNoDataF_ack : PreservesAck (offlineNoDataF cfg L name k) := by
  intro st
  show (bookkeep cfg.nowMs st).lastAckMs = st.lastAckMs
  exact bookkeep_lastAck _ _

theorem offlineAgedF_ack (age : Int) : PreservesAck (offlineAgedF cfg L name k age) := by
  intro st
  show (bookkeep cfg.nowMs st).lastAckMs = st.lastAckMs
  exact bookkeep_lastAck _ _

theorem offlineClearF_ack : PreservesAck offlineClearF := by
  intro st
  exact clearEv_lastAck st

theorem anomalyCore_ack (sig : Bool × Option DeltaInfo × Option DeltaInfo × Option DeltaInfo) :
    PreservesAck (anomalyCore cfg L name k m sig) := by
  intro st
  unfold anomalyCore
  split
  · rfl
  split
  · rcases anomalyQuiet_cases cfg st with h | h <;> rw [h]
    exact clearEv_lastAck st
  dsimp only
  split
  · exact bookkeep_lastAck _ _
  · rw [anomalyFire_lastAck]
    exact bookkeep_lastAck _ _

theorem offlineNoDataF_keyed : KeyedCand k (offlineNoDataF cfg L name k) := by
  intro st c hc
  unfold offlineNoDataF at hc
  dsimp only at hc
  split at hc
  · cases hc
  · cases hc
    rfl

theorem offlineAgedF_keyed (age : Int) : KeyedCand k (offlineAgedF cfg L name k age) := by
  intro st c hc
  unfold offlineAgedF at hc
  dsimp only at hc
  split at hc
  · cases hc
  split at hc <;> (cases hc; rfl)

theorem offlineClearF_keyed : KeyedCand k offlineClearF := by
  intro st c hc
  cases hc

theorem anomalyCore_keyed
    (sig : Bool × Option DeltaInfo × Option DeltaInfo × Option DeltaInfo) :
    KeyedCand k (anomalyCore cfg L name k m sig) := by
  intro st c hc
  unfold anomalyCore at hc
  split at hc
  · cases hc
  split at hc
  · rw [anomalyQuiet_snd] at hc
    cases hc
  dsimp only at hc
  split at hc
  · cases hc
  · obtain ⟨c', hc', hk', _, _⟩ := anomalyFire_snd cfg L name k m _ (bookkeep cfg.nowMs st)
    rw [hc'] at hc
    cases hc
    exact hk'

theorem offlineNoDataF_silent :
    SnoozeSilent cfg.nowMs cfg.modalSnoozeMs (offlineNoDataF cfg L name k) := by
  intro st hsn
  unfold offlineNoDataF
  dsimp only
  rw [if_pos]
  show snoozedAt (bookkeep cfg.nowMs st).lastAckMs cfg.nowMs cfg.modalSnoozeMs = true
  rw [bookkeep_lastAck]
  exact hsn

theorem offlineAgedF_silent (age : Int) :
    SnoozeSilent cfg.nowMs cfg.modalSnoozeMs (offlineAgedF cfg L name k age) := by
  intro st hsn
  unfold offlineAgedF
  dsimp only
  rw [if_pos]
  show snoozedAt (bookkeep cfg.nowMs st).lastAckMs cfg.nowMs cfg.modalSnoozeMs = true
  rw [bookkeep_lastAck]
  exact hsn

theorem offlineClearF_silent :
    SnoozeSilent cfg.nowMs cfg.modalSnoozeMs offlineClearF := by
  intro st _
  rfl

theorem anomalyCore_silent
    (sig : Bool × Option DeltaInfo × Option DeltaInfo × Option DeltaInfo) :
    SnoozeSilent cfg.nowMs cfg.modalSnoozeMs (anomalyCore cfg L name k m sig) := by
  intro st hsn
  unfold anomalyCore
  split
  · rfl
  split
  · exact anomalyQuiet_snd cfg st
  dsimp only
  split
  · rfl
  · rename_i hns
    exact absurd (by
      show snoozedAt (bookkeep cfg.nowMs st).lastAckMs cfg.nowMs cfg.modalSnoozeMs = true
      rw [bookkeep_lastAck]
      exact hsn) hns

theorem offlineNoDataF_idem : StepIdem (offlineNoDataF cfg L name k) := by
  intro st
  show offlineNoDataF cfg L name k (bookkeep cfg.nowMs st) = _
  unfold offlineNoDataF
  dsimp only
  rw [bookkeep_idem]

theorem offlineAgedF_idem (age : Int) : StepIdem (offlineAgedF cfg L name k age) := by
  intro st
  show offlineAgedF cfg L name k age (bookkeep cfg.nowMs st) = _
  unfold offlineAgedF
  dsimp only
  rw [bookkeep_idem]

theorem offlineClearF_idem : StepIdem offlineClearF := by
  intro st
  show offlineClearF (clearEv st) = _
  unfold offlineClearF
  rw [clearEv_idem]

theorem anomalyCore_idem
    (sig : Bool × Option DeltaInfo × Option DeltaInfo × Option DeltaInfo) :
    StepIdem (anomalyCore cfg L name k m sig) := by
  intro st
  by_cases hsp : sig.1 = true
  · show anomalyCore cfg L name k m sig (anomalyCore cfg L name k m sig st).1 = _
    unfold anomalyCore
    rw [if_pos hsp, if_pos hsp]
  by_cases hact : activeOf m sig = true
  · by_cases hsn : snoozedAt st.lastAckMs cfg.nowMs cfg.modalSnoozeMs = true
    · have hfirst : anomalyCore cfg L name k m sig st = (bookkeep cfg.nowMs st, none) := by
        unfold anomalyCore
        rw [if_neg (by simp [hsp]), if_neg (by simp [hact])]
        dsimp only
        rw [if_pos (by
          show snoozedAt (bookkeep cfg.nowMs st).lastAckMs cfg.nowMs cfg.modalSnoozeMs = true
          rw [bookkeep_lastAck]
          exact hsn)]
      rw [hfirst]
      unfold anomalyCore
      rw [if_neg (by simp [hsp]), if_neg (by simp [hact])]
      dsimp only
      rw [if_pos (by
        show snoozedAt (bookkeep cfg.nowMs (bookkeep cfg.nowMs st)).lastAckMs
          cfg.nowMs cfg.modalSnoozeMs = true
        rw [bookkeep_lastAck, bookkeep_lastAck]
        exact hsn), bookkeep_idem]
    · have hfirst : anomalyCore cfg L name k m sig st =
          anomalyFire cfg L name k m
            (pickDelta (hitB sig.2.1 (TH m).spike) (hitB sig.2.2.1 (TH m).slow5m)
              sig.2.1 sig.2.2.1 sig.2.2.2) (bookkeep cfg.nowMs st) := by
        unfold anomalyCore
        rw [if_neg (by simp [hsp]), if_neg (by simp [hact])]
        dsimp only
        rw [if_neg (by
          show ¬ snoozedAt (bookkeep cfg.nowMs st).lastAckMs cfg.nowMs cfg.modalSnoozeMs = true
          rw [bookkeep_lastAck]
          exact hsn)]
      rw [hfirst]
      unfold anomalyCore
      rw [if_neg (by simp [hsp]), if_neg (by simp [hact])]
      dsimp only
      rw [bookkeep_anomalyFire]
      rw [if_neg (by
        show ¬ snoozedAt ((anomalyFire cfg L name k m _ (bookkeep cfg.nowMs st)).1).lastAckMs
          cfg.nowMs cfg.modalSnoozeMs = true
        rw [anomalyFire_lastAck, bookkeep_lastAck]
        exact hsn)]
      exact anomalyFire_idem cfg L name k m _ _
  · have hfirst : anomalyCore cfg L name k m sig st = anomalyQuiet cfg st := by
      unfold anomalyCore
      rw [if_neg (by simp [hsp]), if_pos (by simp [hact])]
    rw [hfirst]
    unfold anomalyCore
    rw [if_neg (by simp [hsp]), if_pos (by simp [hact])]
    exact anomalyQuiet_idem cfg st

theorem offlineNoDataF_mono : StageMono (offlineNoDataF cfg L name k) := by
  intro st
  exact .inl le_rfl

theorem offlineAgedF_mono (age : Int) : StageMono (offlineAgedF cfg L name k age) := by
  intro st
  exact .inl le_rfl

theorem offlineClearF_mono : StageMono offlineClearF := by
  intro st
  exact .inr ⟨rfl, rfl⟩

theorem anomalyCore_mono
    (sig : Bool × Option DeltaInfo × Option DeltaInfo × Option DeltaInfo) :
    StageMono (anomalyCore cfg L name k m sig) := by
  intro st
  unfold anomalyCore
  split
  · exact .inl le_rfl
  split
  · rcases anomalyQuiet_cases cfg st with h | h <;> rw [h]
    · exact .inl le_rfl
    · exact .inr ⟨rfl, rfl⟩
  dsimp only
  split
  · exact .inl le_rfl
  · left
    have h := anomalyFire_lf cfg L name k m
      (pickDelta (hitB sig.2.1 (TH m).spike) (hitB sig.2.2.1 (TH m).slow5m)
        sig.2.1 sig.2.2.1 sig.2.2.2) (bookkeep cfg.nowMs st)
    rw [bookkeep_lastFired] at h
    exact h

end StepProps

/-! ### Properties of the step lists of a cycle -/

theorem deviceSteps_props (cfg : Cfg) (L : Lang) (d : Device) :
    ∀ p ∈ deviceSteps cfg L d,
      PreservesAck p.2 ∧ KeyedCand p.1 p.2 ∧
      SnoozeSilent cfg.nowMs cfg.modalSnoozeMs p.2 ∧ StepIdem p.2 ∧ StageMono p.2 := by
  intro p hp
  unfold deviceSteps at hp
  dsimp only at hp
  split at hp
  · rw [List.mem_singleton] at hp
    subst hp
    exact ⟨offlineNoDataF_ack _ _ _ _, offlineNoDataF_keyed _ _ _ _,
      offlineNoDataF_silent _ _ _ _, offlineNoDataF_idem _ _ _ _,
      offlineNoDataF_mono _ _ _ _⟩
  · rcases List.mem_cons.mp hp with hhd | htl
    · subst hhd
      split
      · exact ⟨offlineAgedF_ack _ _ _ _ _, offlineAgedF_keyed _ _ _ _ _,
          offlineAgedF_silent _ _ _ _ _, offlineAgedF_idem _ _ _ _ _,
          offlineAgedF_mono _ _ _ _ _⟩
      · exact ⟨offlineClearF_ack, offlineClearF_keyed _, offlineClearF_silent _,
          offlineClearF_idem, offlineClearF_mono⟩
    · obtain ⟨mm, _, hmp⟩ := List.mem_map.mp htl
      subst hmp
      exact ⟨anomalyCore_ack _ _ _ _ _ _, anomalyCore_keyed _ _ _ _ _ _,
        anomalyCore_silent _ _ _ _ _ _, anomalyCore_idem _ _ _ _ _ _,
        anomalyCore_mono _ _ _ _ _ _⟩

theorem deviceSteps_keyId (cfg : Cfg) (L : Lang) (d : Device) :
    ∀ p ∈ deviceSteps cfg L d, p.1.deviceId = d.deviceId := by
  intro p hp
  unfold deviceSteps at hp
  dsimp only at hp
  split at hp
  · rw [List.mem_singleton] at hp
    subst hp
    rfl
  · rcases List.mem_cons.mp hp with hhd | htl
    · subst hhd
      rfl
    · obtain ⟨mm, _, hmp⟩ := List.mem_map.mp htl
      subst hmp
      rfl

theorem deviceSteps_keys_nodup (cfg : Cfg) (L : Lang) (d : Device) :
    (stepKeys (deviceSteps cfg L d)).Nodup := by
  unfold deviceSteps stepKeys
  dsimp only
  split
  · simp
  · simp only [List.map_cons, List.map_map, metricOrder]
    refine List.nodup_cons.mpr ⟨?_, ?_⟩
    · simp
    · simp [Function.comp, List.Nodup]

theorem allSteps_props (inp : GlobalInput) (L : Lang) :
    ∀ p ∈ allSteps inp L,
      PreservesAck p.2 ∧ KeyedCand p.1 p.2 ∧
      SnoozeSilent inp.nowMs inp.modalSnoozeMs p.2 ∧ StepIdem p.2 ∧ StageMono p.2 := by
  intro p hp
  unfold allSteps at hp
  obtain ⟨l, hl, hpl⟩ := List.mem_flatten.mp hp
  obtain ⟨d, _, hdl⟩ := List.mem_map.mp hl
  subst hdl
  exact deviceSteps_props inp.cfg L d p hpl

theorem allSteps_keys_nodup (inp : GlobalInput) (L : Lang)
    (hids : (inp.devices.map Device.deviceId).Nodup) :
    (stepKeys (allSteps inp L)).Nodup := by
  unfold allSteps stepKeys
  rw [List.map_flatten, List.map_map]
  rw [List.nodup_flatten]
  constructor
  · intro l hl
    obtain ⟨d, _, hdl⟩ := List.mem_map.mp hl
    subst hdl
    exact deviceSteps_keys_nodup inp.cfg L d
  · rw [List.pairwise_map]
    have hpw : List.Pairwise (fun a b : Device => a.deviceId ≠ b.deviceId) inp.devices := by
      have h := hids
      rw [List.Nodup, List.pairwise_map] at h
      exact h
    refine hpw.imp ?_
    intro a b hab k hka hkb
    obtain ⟨p, hp, hpk⟩ := List.mem_map.mp hka
    obtain ⟨q, hq, hqk⟩ := List.mem_map.mp hkb
    apply hab
    have h1 : k.deviceId = a.deviceId := by
      rw [← hpk]
      exact deviceSteps_keyId inp.cfg L a p hp
    have h2 : k.deviceId = b.deviceId := by
      rw [← hqk]
      exact deviceSteps_keyId inp.cfg L b q hq
    rw [← h1, ← h2]

/-! ### Arbitration lemmas -/

/-- `a` ranks no higher than `b` under the descending
`(stage, seenSinceMs || 0)` sort order. -/
def lexLe (a b : Candidate) : Prop :=
  a.stage < b.stage ∨ (a.stage = b.stage ∧ seenKey a ≤ seenKey b)

theorem lexGtB_false_iff (a b : Candidate) : lexGtB a b = false ↔ lexLe a b := by
  simp only [lexGtB, Bool.or_eq_false_iff, Bool.and_eq_false_iff,
    decide_eq_false_iff_not, lexLe]
  omega

theorem lexGtB_true_iff (a b : Candidate) :
    lexGtB a b = true ↔ (b.stage < a.stage ∨ (a.stage = b.stage ∧ seenKey b < seenKey a)) := by
  simp [lexGtB]

theorem lexGtB_irrefl (c : Candidate) : lexGtB c c = false := by
  rw [lexGtB_false_iff]
  exact .inr ⟨rfl, le_rfl⟩

/-- The pick function of the fold modelling `sort(...)[0]`. -/
def pickTop (best x : Candidate) : Candidate :=
  if lexGtB x best then x else best

theorem topCandidate_cons (c : Candidate) (cs : List Candidate) :
    topCandidate (c :: cs) = some (cs.foldl pickTop c) := rfl

theorem foldl_pickTop_mem (cs : List Candidate) :
    ∀ c : Candidate, cs.foldl pickTop c ∈ c :: cs := by
  induction cs with
  | nil => intro c; simp
  | cons x xs ih =>
      intro c
      simp only [List.foldl_cons]
      have h := ih (pickTop c x)
      rcases List.mem_cons.mp h with h1 | h1
      · rw [h1]
        unfold pickTop
        split
        · exact List.mem_cons_of_mem _ (List.mem_cons_self _ _)
        · exact List.mem_cons_self _ _
      · exact List.mem_cons_of_mem _ (List.mem_cons_of_mem _ h1)

theorem foldl_pickTop_max (cs : List Candidate) :
    ∀ c : Candidate, ∀ a ∈ c :: cs, lexLe a (cs.foldl pickTop c) := by
  induction cs with
  | nil =>
      intro c a ha
      rw [List.mem_singleton] at ha
      subst ha
      exact .inr ⟨rfl, le_rfl⟩
  | cons x xs ih =>
      intro c a ha
      simp only [List.foldl_cons]
      have hm := ih (pickTop c x)
      have hc : lexLe (pickTop c x) (xs.foldl pickTop (pickTop c x)) :=
        hm _ (List.mem_cons_self _ _)
      rcases List.mem_cons.mp ha with h1 | h1
      · subst h1
        by_cases hx : lexGtB x a = true
        · have hp : pickTop a x = x := by
            unfold pickTop
            rw [if_pos hx]
          rw [hp] at hc ⊢
          have hx' := (lexGtB_true_iff x a).mp hx
          rcases hc with h | h <;> rcases hx' with h' | h'
          · exact .inl (by omega)
          · exact .inl (by omega)
          · exact .inl (by omega)
          · exact .inr ⟨by omega, by omega⟩
        · have hp : pickTop a x = a := by
            unfold pickTop
            rw [if_neg hx]
          rw [hp] at hc ⊢
          exact hc
      · rcases List.mem_cons.mp h1 with h2 | h2
        · subst h2
          by_cases hx : lexGtB a c = true
          · have hp : pickTop c a = a := by
              unfold pickTop
              rw [if_pos hx]
            rw [hp] at hc ⊢
            exact hc
          · have hp : pickTop c a = c := by
              unfold pickTop
              rw [if_neg hx]
            rw [hp] at hc ⊢
            have hx' := (lexGtB_false_iff a c).mp (Bool.eq_false_iff.mpr hx)
            rcases hc with h | h <;> rcases hx' with h' | h'
            · exact .inl (by omega)
            · exact .inl (by omega)
            · exact .inl (by omega)
            · exact .inr ⟨by omega, by omega⟩
        · exact hm a (List.mem_cons_of_mem _ h2)

theorem topCandidate_spec {l : List Candidate} {t : Candidate}
    (h : topCandidate l = some t) : t ∈ l ∧ ∀ c ∈ l, lexLe c t := by
  cases l with
  | nil => cases h
  | cons c cs =>
      rw [topCandidate_cons] at h
      injection h with h
      subst h
      exact ⟨foldl_pickTop_mem cs c, foldl_pickTop_max cs c⟩

theorem topCandidate_of_ne_nil {l : List Candidate} (h : l ≠ []) :
    ∃ t, topCandidate l = some t := by
  cases l with
  | nil => exact absurd rfl h
  | cons c cs => exact ⟨_, rfl⟩

theorem arbitrate_top (L : Lang) (cands : List Candidate) (t : Candidate)
    (h : topCandidate cands = some t) :
    arbitrate L cands =
      { toast := none
        modal := some ⟨if t.stage = 3 then Level.critical else Level.modal, t.text, t.eventKey⟩
        lang := L } := by
  unfold arbitrate
  rw [h]
  dsimp only
  by_cases hs : t.stage = 3
  · rw [if_pos hs, if_pos hs]
  · rw [if_neg hs, if_neg hs]

/-! ### Bridge lemmas: locating one key's step inside a cycle -/

/-- With key-distinct steps, the candidate computed by the step at `k`
from the initial store appears in the output. -/
theorem runSteps_cand_at {steps : List (EventKey × StepFun)} {k : EventKey} {f : StepFun}
    (hnd : (stepKeys steps).Nodup) (hkf : (k, f) ∈ steps) :
    ∀ (s : Store) (c : Candidate), (f (s k)).2 = some c → c ∈ (runSteps steps s).2 := by
  induction steps with
  | nil => cases hkf
  | cons p rest ih =>
      intro s c hc
      obtain ⟨k', f'⟩ := p
      rw [stepKeys_cons] at hnd
      have hnd' := List.nodup_cons.mp hnd
      rcases List.mem_cons.mp hkf with hhd | htl
      · injection hhd with hk hf
        simp only [runSteps]
        rw [← hk, ← hf] at *
        rw [hc]
        simp
      · have hkk' : k ≠ k' := by
          intro he
          apply hnd'.1
          rw [← he]
          exact @stepKeys_mem_of_mem rest (k, f) htl
        have hsk : (storeSet s k' ((f' (s k')).1)) k = s k := storeSet_other _ _ hkk'
        simp only [runSteps]
        refine List.mem_append_right _ (ih hnd'.2 htl _ c ?_)
        rw [hsk]
        exact hc

/-- The final store of a run, at a key whose step list is key-distinct,
is the step's output on the initial entry. -/
theorem runGlobal_store_at {inp : GlobalInput} {L : Lang} {k : EventKey} {f : StepFun}
    (hids : (inp.devices.map Device.deviceId).Nodup)
    (hkf : (k, f) ∈ allSteps inp L) (s : Store) :
    (runGlobal inp L s).1 k = (f ((applyAck s inp.ackEventKey inp.nowMs) k)).1 :=
  runSteps_store_at (allSteps_keys_nodup inp L hids) hkf _

theorem deviceSteps_mem_allSteps {inp : GlobalInput} {L : Lang} {d : Device}
    (hd : d ∈ inp.devices) {p : EventKey × StepFun}
    (hp : p ∈ deviceSteps inp.cfg L d) : p ∈ allSteps inp L := by
  unfold allSteps
  rw [List.mem_flatten]
  exact ⟨deviceSteps inp.cfg L d, List.mem_map_of_mem _ hd, hp⟩

theorem offline_nodata_step_mem {inp : GlobalInput} {L : Lang} {d : Device}
    (hd : d ∈ inp.devices) (hln : truthy d.lastDataMs = false) :
    (EventKey.offline d.deviceId,
      offlineNoDataF inp.cfg L (effectiveName d) (EventKey.offline d.deviceId))
      ∈ allSteps inp L := by
  refine deviceSteps_mem_allSteps hd ?_
  unfold deviceSteps
  dsimp only
  rw [if_pos (by rw [hln]; rfl)]
  exact List.mem_singleton.mpr rfl

theorem cfg_nowMs (inp : GlobalInput) : inp.cfg.nowMs = inp.nowMs := rfl

theorem cfg_warnMs (inp : GlobalInput) : inp.cfg.warnMs = inp.warnMs := rfl

theorem cfg_alertMs (inp : GlobalInput) : inp.cfg.alertMs = inp.alertMs := rfl

theorem cfg_repeatWindowMs (inp : GlobalInput) :
    inp.cfg.repeatWindowMs = inp.repeatWindowMs := rfl

theorem cfg_persistWindowMs (inp : GlobalInput) :
    inp.cfg.persistWindowMs = inp.persistWindowMs := rfl

theorem cfg_modalSnoozeMs (inp : GlobalInput) :
    inp.cfg.modalSnoozeMs = inp.modalSnoozeMs := rfl

theorem offline_aged_step_mem {inp : GlobalInput} {L : Lang} {d : Device}
    (hd : d ∈ inp.devices) (hld : truthy d.lastDataMs = true)
    (hage : inp.nowMs - d.lastDataMs.getD 0 ≥ inp.warnMs) :
    (EventKey.offline d.deviceId,
      offlineAgedF inp.cfg L (effectiveName d) (EventKey.offline d.deviceId)
        (inp.nowMs - d.lastDataMs.getD 0))
      ∈ allSteps inp L := by
  refine deviceSteps_mem_allSteps hd ?_
  unfold deviceSteps
  dsimp only
  simp only [cfg_nowMs, cfg_warnMs]
  rw [if_neg (by rw [hld]; simp), if_pos hage]
  exact List.mem_cons_self _ _

theorem offline_clear_step_mem {inp : GlobalInput} {L : Lang} {d : Device}
    (hd : d ∈ inp.devices) (hld : truthy d.lastDataMs = true)
    (hage : ¬ inp.nowMs - d.lastDataMs.getD 0 ≥ inp.warnMs) :
    (EventKey.offline d.deviceId, offlineClearF) ∈ allSteps inp L := by
  refine deviceSteps_mem_allSteps hd ?_
  unfold deviceSteps
  dsimp only
  simp only [cfg_nowMs, cfg_warnMs]
  rw [if_neg (by rw [hld]; simp), if_neg hage]
  exact List.mem_cons_self _ _

theorem anomaly_step_mem {inp : GlobalInput} {L : Lang} {d : Device}
    (hd : d ∈ inp.devices) (hld : truthy d.lastDataMs = true) (m : Metric) :
    (EventKey.anomaly d.deviceId m,
      anomalyF inp.cfg L (effectiveName d) (EventKey.anomaly d.deviceId m)
        (series d.rows m) m)
      ∈ allSteps inp L := by
  refine deviceSteps_mem_allSteps hd ?_
  unfold deviceSteps
  dsimp only
  rw [if_neg (by rw [hld]; simp)]
  refine List.mem_cons_of_mem _ (List.mem_map.mpr ⟨m, ?_, rfl⟩)
  cases m <;> simp [metricOrder]

/-! ### The anomaly activity predicate of the detector -/

/-- The detector fires for a series exactly when the sparse-data guard
passes and one of the three deltas is at or past its threshold. -/
def anomalyActive (pts : List Point) (m : Metric) : Bool :=
  !(anomalySig pts).1 && activeOf m (anomalySig pts)

theorem anomalyCore_active_snoozed (cfg : Cfg) (L : Lang) (name : String) (k : EventKey)
    (m : Metric) (pts : List Point) (st : EventState)
    (hactive : anomalyActive pts m = true)
    (hsn : snoozedAt st.lastAckMs cfg.nowMs cfg.modalSnoozeMs = true) :
    anomalyF cfg L name k pts m st = (bookkeep cfg.nowMs st, none) := by
  unfold anomalyActive at hactive
  rw [Bool.and_eq_true, Bool.not_eq_true'] at hactive
  unfold anomalyF anomalyCore
  rw [if_neg (by rw [hactive.1]; simp), if_neg (by rw [hactive.2]; simp)]
  dsimp only
  rw [if_pos (by
    show snoozedAt (bookkeep cfg.nowMs st).lastAckMs cfg.nowMs cfg.modalSnoozeMs = true
    rw [bookkeep_lastAck]
    exact hsn)]

theorem anomalyCore_active_unsnoozed (cfg : Cfg) (L : Lang) (name : String) (k : EventKey)
    (m : Metric) (pts : List Point) (st : EventState)
    (hactive : anomalyActive pts m = true)
    (hsn : snoozedAt st.lastAckMs cfg.nowMs cfg.modalSnoozeMs = false) :
    anomalyF cfg L name k pts m st =
      anomalyFire cfg L name k m
        (pickDelta (hitB (anomalySig pts).2.1 (TH m).spike)
          (hitB (anomalySig pts).2.2.1 (TH m).slow5m)
          (anomalySig pts).2.1 (anomalySig pts).2.2.1 (anomalySig pts).2.2.2)
        (bookkeep cfg.nowMs st) := by
  unfold anomalyActive at hactive
  rw [Bool.and_eq_true, Bool.not_eq_true'] at hactive
  unfold anomalyF anomalyCore
  rw [if_neg (by rw [hactive.1]; simp), if_neg (by rw [hactive.2]; simp)]
  dsimp only
  rw [if_neg (by
    show ¬ snoozedAt (bookkeep cfg.nowMs st).lastAckMs cfg.nowMs cfg.modalSnoozeMs = true
    rw [bookkeep_lastAck, hsn]
    simp)]

/-! ### Claim theorems -/

theorem evaluateGlobal_fst (inp : GlobalInput) (browser : Lang) (s : Store) :
    (evaluateGlobal inp browser s).1 =
      arbitrate (detectLang inp.langMode browser) (candidatesOf inp browser s) := rfl

theorem evaluateGlobal_snd (inp : GlobalInput) (browser : Lang) (s : Store) :
    (evaluateGlobal inp browser s).2 =
      (runGlobal inp (detectLang inp.langMode browser) s).1 := rfl

theorem candidatesOf_eq (inp : GlobalInput) (browser : Lang) (s : Store) :
    candidatesOf inp browser s =
      (runSteps (allSteps inp (detectLang inp.langMode browser))
        (applyAck s inp.ackEventKey inp.nowMs)).2 := rfl

/-- C1: for every input and store, the result populates at most one of
`toast` and `modal`; and whenever the cycle collected at least one
candidate, the emitted notification carries the text and event key of a
candidate that is maximal under the descending
`(stage, seenSinceMs || 0)` lexicographic order. -/
theorem evaluateGlobal_single_notification_top (inp : GlobalInput) (browser : Lang)
    (s : Store) :
    ((evaluateGlobal inp browser s).1.toast = none ∨
      (evaluateGlobal inp browser s).1.modal = none) ∧
    (candidatesOf inp browser s ≠ [] →
      ∃ t ∈ candidatesOf inp browser s,
        (∀ c ∈ candidatesOf inp browser s, lexLe c t) ∧
        ∃ nf : Notif,
          ((evaluateGlobal inp browser s).1.toast = some nf ∨
            (evaluateGlobal inp browser s).1.modal = some nf) ∧
          nf.text = t.text ∧ nf.eventKey = t.eventKey) := by
  constructor
  · left
    rw [evaluateGlobal_fst]
    cases htop : topCandidate (candidatesOf inp browser s) with
    | none =>
        unfold arbitrate
        rw [htop]
    | some t => rw [arbitrate_top _ _ _ htop]
  · intro hne
    obtain ⟨t, htop⟩ := topCandidate_of_ne_nil hne
    obtain ⟨hmem, hmax⟩ := topCandidate_spec htop
    refine ⟨t, hmem, hmax,
      ⟨⟨if t.stage = 3 then Level.critical else Level.modal, t.text, t.eventKey⟩,
        .inr ?_, rfl, rfl⟩⟩
    rw [evaluateGlobal_fst, arbitrate_top _ _ _ htop]

/-- A store with two already-running offline events, first seen at 1000
(device `x`) and 2000 (device `y`). -/
def exStoreXY : Store := fun k =>
  if k = EventKey.offline "x" then { firstSeenMs := some 1000, lastSeenMs := some 1000 }
  else if k = EventKey.offline "y" then { firstSeenMs := some 2000, lastSeenMs := some 2000 }
  else {}

/-- Two devices with no data at all: both produce stage-2 offline
candidates. -/
def exInpXY : GlobalInput :=
  { devices := [{ deviceId := "x" }, { deviceId := "y" }], nowMs := 10000 }

/-- C2, counterexample: both candidates have stage 2; device `x`'s
condition has been continuously active since 1000 — earlier than `y`'s
2000 — yet the emitted notification is for `y`, refuting "the candidate
with the earliest (smallest) seenSinceMs is the one emitted". -/
theorem evaluateGlobal_equal_stage_oldest_first_counterexample :
    (candidatesOf exInpXY Lang.en exStoreXY).map
        (fun c => (c.stage, seenKey c, c.eventKey)) =
      [(2, 1000, EventKey.offline "x"), (2, 2000, EventKey.offline "y")] ∧
    (evaluateGlobal exInpXY Lang.en exStoreXY).1.modal.map Notif.eventKey =
      some (EventKey.offline "y") ∧
    EventKey.offline "y" ≠ EventKey.offline "x" := by
  decide

/-- The candidate `evaluateGlobal exInpXY Lang.en exStoreXY` emits. -/
def exTopXY : Candidate :=
  { stage := 2, level := .modal, eventKey := EventKey.offline "y"
    text := Msg.offlineAlert .en "y" 5 0, deviceName := "y", metric := .offline
    seenSinceMs := some 2000 }

/-- C2, amended: among simultaneously active candidates of equal stage,
`evaluateGlobal` emits the candidate with the largest
`(seenSinceMs || 0)` — the most recently started condition — because the
tie-break sorts `seenSinceMs` descending, exactly like the stage. -/
theorem evaluateGlobal_equal_stage_newest_first (inp : GlobalInput) (browser : Lang)
    (s : Store) (t : Candidate)
    (htop : topCandidate (candidatesOf inp browser s) = some t) :
    (∀ c ∈ candidatesOf inp browser s, c.stage = t.stage → seenKey c ≤ seenKey t) ∧
    ∃ nf : Notif,
      ((evaluateGlobal inp browser s).1.toast = some nf ∨
        (evaluateGlobal inp browser s).1.modal = some nf) ∧
      nf.text = t.text ∧ nf.eventKey = t.eventKey := by
  obtain ⟨hmem, hmax⟩ := topCandidate_spec htop
  constructor
  · intro c hc hst
    rcases hmax c hc with h | h
    · omega
    · exact h.2
  · refine ⟨⟨if t.stage = 3 then Level.critical else Level.modal, t.text, t.eventKey⟩,
      .inr ?_, rfl, rfl⟩
    rw [evaluateGlobal_fst, arbitrate_top _ _ _ htop]

/-- Witness for the amended C2 at a concrete input. -/
theorem evaluateGlobal_equal_stage_newest_first_witness :
    topCandidate (candidatesOf exInpXY Lang.en exStoreXY) = some exTopXY ∧
    ((∀ c ∈ candidatesOf exInpXY Lang.en exStoreXY,
        c.stage = exTopXY.stage → seenKey c ≤ seenKey exTopXY) ∧
      ∃ nf : Notif,
        ((evaluateGlobal exInpXY Lang.en exStoreXY).1.toast = some nf ∨
          (evaluateGlobal exInpXY Lang.en exStoreXY).1.modal = some nf) ∧
        nf.text = exTopXY.text ∧ nf.eventKey = exTopXY.eventKey) :=
  ⟨by decide, evaluateGlobal_equal_stage_newest_first exInpXY Lang.en exStoreXY exTopXY
    (by decide)⟩

/-- Witness for C1 at a concrete input with a nonempty candidate list. -/
theorem evaluateGlobal_single_notification_top_witness :
    (candidatesOf exInpXY Lang.en exStoreXY ≠ []) ∧
    (∃ t ∈ candidatesOf exInpXY Lang.en exStoreXY,
      (∀ c ∈ candidatesOf exInpXY Lang.en exStoreXY, lexLe c t) ∧
      ∃ nf : Notif,
        ((evaluateGlobal exInpXY Lang.en exStoreXY).1.toast = some nf ∨
          (evaluateGlobal exInpXY Lang.en exStoreXY).1.modal = some nf) ∧
        nf.text = t.text ∧ nf.eventKey = t.eventKey) :=
  ⟨by decide,
    (evaluateGlobal_single_notification_top exInpXY Lang.en exStoreXY).2 (by decide)⟩

/-- One device whose offline age (100000 ms) is past the warn threshold
(50000 ms) but far below the alert threshold: the cycle's only candidate
is stage 1 / level `warn`. -/
def exInpC3 : GlobalInput :=
  { devices := [{ deviceId := "a", lastDataMs := some 100000 }]
    nowMs := 200000, warnMs := 50000, alertMs := 1000000000 }

/-- C3 (failing input): the sole candidate of this cycle is stage 1
(offline warn), yet the final dispatch returns it as a blocking modal
with level `modal` and no toast — the dispatch of this version has no
stage-1 / toast branch, contradicting the documented
"stage 1 → toast (non-blocking)" behaviour. -/
theorem evaluateGlobal_stage1_top_yields_plain_modal :
    (candidatesOf exInpC3 Lang.en (fun _ => {})).map
        (fun c => (c.stage, c.level)) = [(1, Level.warn)] ∧
    (evaluateGlobal exInpC3 Lang.en (fun _ => {})).1.toast = none ∧
    (evaluateGlobal exInpC3 Lang.en (fun _ => {})).1.modal =
      some ⟨Level.modal, Msg.offlineWarn Lang.en "a" 100, EventKey.offline "a"⟩ := by
  decide

/-- C4: over one evaluation cycle on a snapshot list with distinct
device ids, each key's `lastFiredStage` either does not decrease, or the
event was cleared in that same cycle (stage reset to 0 together with
`firstSeenMs` reset to null).  Quantifying over every starting store
covers every pair of consecutive cycles. -/
theorem lastFiredStage_monotone_or_cleared (inp : GlobalInput) (browser : Lang)
    (s : Store) (hids : (inp.devices.map Device.deviceId).Nodup) (k : EventKey) :
    (s k).lastFiredStage ≤ ((evaluateGlobal inp browser s).2 k).lastFiredStage ∨
    (((evaluateGlobal inp browser s).2 k).lastFiredStage = 0 ∧
      ((evaluateGlobal inp browser s).2 k).firstSeenMs = none) := by
  rw [evaluateGlobal_snd]
  have h := runSteps_stageMono (allSteps_keys_nodup inp (detectLang inp.langMode browser) hids)
    (fun p hp => (allSteps_props inp (detectLang inp.langMode browser) p hp).2.2.2.2) k
    (applyAck s inp.ackEventKey inp.nowMs)
  rw [applyAck_lastFired] at h
  exact h

/-- Witness for C4 at a concrete input. -/
theorem lastFiredStage_monotone_or_cleared_witness :
    ((exInpC3.devices.map Device.deviceId).Nodup) ∧
    ((exStoreXY (EventKey.offline "a")).lastFiredStage ≤
        ((evaluateGlobal exInpC3 Lang.en exStoreXY).2 (EventKey.offline "a")).lastFiredStage ∨
      (((evaluateGlobal exInpC3 Lang.en exStoreXY).2 (EventKey.offline "a")).lastFiredStage = 0 ∧
        ((evaluateGlobal exInpC3 Lang.en exStoreXY).2 (EventKey.offline "a")).firstSeenMs
          = none)) :=
  ⟨by decide, lastFiredStage_monotone_or_cleared exInpC3 Lang.en exStoreXY (by decide)
    (EventKey.offline "a")⟩

/-- C9: with distinct device ids and no acknowledgement, evaluating the
same input twice in a row — the second call starting from the store the
first call produced — returns equal results. -/
theorem evaluateGlobal_idempotent_clean_input (inp : GlobalInput) (browser : Lang)
    (s : Store) (hids : (inp.devices.map Device.deviceId).Nodup)
    (hack : inp.ackEventKey = none) :
    (evaluateGlobal inp browser ((evaluateGlobal inp browser s).2)).1 =
      (evaluateGlobal inp browser s).1 := by
  have hidem : ∀ p ∈ allSteps inp (detectLang inp.langMode browser), StepIdem p.2 :=
    fun p hp => (allSteps_props inp (detectLang inp.langMode browser) p hp).2.2.2.1
  rw [evaluateGlobal_fst, evaluateGlobal_fst, candidatesOf_eq, candidatesOf_eq,
    evaluateGlobal_snd]
  unfold runGlobal
  rw [hack]
  rw [applyAck_none]
  rw [runSteps_idem (allSteps_keys_nodup inp (detectLang inp.langMode browser) hids)
    hidem (applyAck s none inp.nowMs)]

/-- Witness for C9 at a concrete input. -/
theorem evaluateGlobal_idempotent_clean_input_witness :
    ((exInpC3.devices.map Device.deviceId).Nodup ∧ exInpC3.ackEventKey = none) ∧
    (evaluateGlobal exInpC3 Lang.en ((evaluateGlobal exInpC3 Lang.en exStoreXY).2)).1 =
      (evaluateGlobal exInpC3 Lang.en exStoreXY).1 :=
  ⟨⟨by decide, rfl⟩,
    evaluateGlobal_idempotent_clean_input exInpC3 Lang.en exStoreXY (by decide) rfl⟩

/-- C5: take a device in the snapshot list (distinct ids) whose series
makes the anomaly condition for metric `m` active, and suppose its event
key is acknowledged at time `t0` — possibly through this very call's
`ackEventKey`, which is applied before detection.  Within the snooze
window no candidate for that key is produced, while `lastSeenMs` is still
updated and `firstSeenMs` set if unset; at or past the snooze window a
candidate for the key is produced again, at a stage at least the
previously recorded `lastFiredStage` (for a recorded stage 3 the
condition's continuous run must still span the persist window, which is
exactly how a stage of 3 is ever recorded). -/
theorem snooze_suppresses_but_not_erases (inp : GlobalInput) (browser : Lang) (s : Store)
    (d : Device) (m : Metric) (t0 : Int)
    (hd : d ∈ inp.devices)
    (hids : (inp.devices.map Device.deviceId).Nodup)
    (hld : truthy d.lastDataMs = true)
    (hactive : anomalyActive (series d.rows m) m = true)
    (hack : ((applyAck s inp.ackEventKey inp.nowMs) (EventKey.anomaly d.deviceId m)).lastAckMs
      = some t0)
    (ht0 : t0 ≠ 0) :
    (inp.nowMs - t0 < inp.modalSnoozeMs →
      (∀ c ∈ candidatesOf inp browser s, c.eventKey ≠ EventKey.anomaly d.deviceId m) ∧
      ((evaluateGlobal inp browser s).2 (EventKey.anomaly d.deviceId m)).lastSeenMs
        = some inp.nowMs ∧
      ((evaluateGlobal inp browser s).2 (EventKey.anomaly d.deviceId m)).firstSeenMs =
        (if truthy ((applyAck s inp.ackEventKey inp.nowMs)
              (EventKey.anomaly d.deviceId m)).firstSeenMs
         then ((applyAck s inp.ackEventKey inp.nowMs)
            (EventKey.anomaly d.deviceId m)).firstSeenMs
         else some inp.nowMs)) ∧
    (inp.modalSnoozeMs ≤ inp.nowMs - t0 →
      ((s (EventKey.anomaly d.deviceId m)).lastFiredStage ≤ 2 ∨
        ((s (EventKey.anomaly d.deviceId m)).lastFiredStage = 3 ∧
          ∃ fs, (s (EventKey.anomaly d.deviceId m)).firstSeenMs = some fs ∧ fs ≠ 0 ∧
            inp.persistWindowMs ≤ inp.nowMs - fs)) →
      ∃ c ∈ candidatesOf inp browser s, c.eventKey = EventKey.anomaly d.deviceId m ∧
        (s (EventKey.anomaly d.deviceId m)).lastFiredStage ≤ c.stage) := by
  have hmem := anomaly_step_mem (L := detectLang inp.langMode browser) hd hld m
  constructor
  · intro hlt
    have hsn : snoozedAt ((applyAck s inp.ackEventKey inp.nowMs)
        (EventKey.anomaly d.deviceId m)).lastAckMs inp.nowMs inp.modalSnoozeMs = true := by
      rw [hack]
      unfold snoozedAt
      simp [ht0, hlt]
    refine ⟨?_, ?_, ?_⟩
    · intro c hc
      refine runSteps_snoozed_no_cand
        (fun p hp => (allSteps_props inp (detectLang inp.langMode browser) p hp).1)
        (fun p hp => (allSteps_props inp (detectLang inp.langMode browser) p hp).2.1)
        (fun p hp => (allSteps_props inp (detectLang inp.langMode browser) p hp).2.2.1)
        (applyAck s inp.ackEventKey inp.nowMs) hsn c ?_
      rw [candidatesOf_eq] at hc
      exact hc
    · rw [evaluateGlobal_snd, runGlobal_store_at hids hmem s,
        anomalyCore_active_snoozed _ _ _ _ _ _ _ hactive hsn]
      rfl
    · rw [evaluateGlobal_snd, runGlobal_store_at hids hmem s,
        anomalyCore_active_snoozed _ _ _ _ _ _ _ hactive hsn]
      exact bookkeep_firstSeen _ _
  · intro hge hwf
    have hsn : snoozedAt ((applyAck s inp.ackEventKey inp.nowMs)
        (EventKey.anomaly d.deviceId m)).lastAckMs inp.nowMs inp.modalSnoozeMs = false := by
      rw [hack]
      unfold snoozedAt
      simp only [Bool.and_eq_false_iff, decide_eq_false_iff_not]
      right
      omega
    have hrw := anomalyCore_active_unsnoozed inp.cfg (detectLang inp.langMode browser)
      (effectiveName d) (EventKey.anomaly d.deviceId m) m (series d.rows m)
      ((applyAck s inp.ackEventKey inp.nowMs) (EventKey.anomaly d.deviceId m))
      hactive hsn
    obtain ⟨c, hcsome, hkey', hstage, hseen⟩ :=
      anomalyFire_snd inp.cfg (detectLang inp.langMode browser) (effectiveName d)
        (EventKey.anomaly d.deviceId m) m
        (pickDelta (hitB (anomalySig (series d.rows m)).2.1 (TH m).spike)
          (hitB (anomalySig (series d.rows m)).2.2.1 (TH m).slow5m)
          (anomalySig (series d.rows m)).2.1 (anomalySig (series d.rows m)).2.2.1
          (anomalySig (series d.rows m)).2.2.2)
        (bookkeep inp.cfg.nowMs
          ((applyAck s inp.ackEventKey inp.nowMs) (EventKey.anomaly d.deviceId m)))
    have hceval : (anomalyF inp.cfg (detectLang inp.langMode browser) (effectiveName d)
        (EventKey.anomaly d.deviceId m) (series d.rows m) m
        ((applyAck s inp.ackEventKey inp.nowMs) (EventKey.anomaly d.deviceId m))).2
        = some c := by
      rw [hrw]
      exact hcsome
    have hcmem : c ∈ candidatesOf inp browser s := by
      rw [candidatesOf_eq]
      exact runSteps_cand_at
        (allSteps_keys_nodup inp (detectLang inp.langMode browser) hids) hmem _ c hceval
    refine ⟨c, hcmem, hkey', ?_⟩
    rw [hstage]
    rcases hwf with h2 | ⟨h3, fs, hfs, hfs0, hper⟩
    · exact le_trans h2 (stageOf_ge_two _ _)
    · rw [h3]
      have hfs' : (bookkeep inp.cfg.nowMs
          ((applyAck s inp.ackEventKey inp.nowMs)
            (EventKey.anomaly d.deviceId m))).firstSeenMs = some fs := by
        rw [bookkeep_firstSeen, applyAck_firstSeen, hfs]
        rw [if_pos]
        show truthy (some fs) = true
        unfold truthy
        simp [hfs0]
      have hst3 : stageOf inp.cfg (bookkeep inp.cfg.nowMs
          ((applyAck s inp.ackEventKey inp.nowMs) (EventKey.anomaly d.deviceId m))) = 3 := by
        unfold stageOf seenForOf
        rw [hfs', orD_some_ne _ _ hfs0,
          if_pos (show inp.cfg.nowMs - fs ≥ inp.cfg.persistWindowMs from hper)]
      rw [hst3]

/-- Three temperature rows ten seconds apart whose last step jumps by
4 °C — past the 3 °C spike threshold. -/
def exRowsSpike : List Row :=
  [ { temperature := some 20, timestamp := some 1700000000000 },
    { temperature := some 20, timestamp := some 1700000010000 },
    { temperature := some 24, timestamp := some 1700000020000 } ]

/-- A device with fresh data and a spiking temperature series. -/
def exDevB : Device :=
  { deviceId := "b", lastDataMs := some 1700000020000, rows := exRowsSpike }

/-- A cycle that acknowledges the device's temperature-anomaly key in the
same call that detects it. -/
def exInpC5 : GlobalInput :=
  { devices := [exDevB], nowMs := 1700000025000
    ackEventKey := some (EventKey.anomaly "b" Metric.temperature) }

unseal Rat.add Rat.sub Rat.mul Rat.inv in
/-- Witness for C5 at a concrete input (the acknowledgement arrives via
`ackEventKey` of the same call, so the detection in this very cycle is
already suppressed). -/
theorem snooze_suppresses_but_not_erases_witness :
    (exDevB ∈ exInpC5.devices ∧ (exInpC5.devices.map Device.deviceId).Nodup ∧
      truthy exDevB.lastDataMs = true ∧
      anomalyActive (series exDevB.rows Metric.temperature) Metric.temperature = true ∧
      ((applyAck (fun _ => {}) exInpC5.ackEventKey exInpC5.nowMs)
          (EventKey.anomaly exDevB.deviceId Metric.temperature)).lastAckMs
        = some 1700000025000 ∧
      (1700000025000 : Int) ≠ 0) ∧
    ((exInpC5.nowMs - 1700000025000 < exInpC5.modalSnoozeMs →
      (∀ c ∈ candidatesOf exInpC5 Lang.en (fun _ => {}),
        c.eventKey ≠ EventKey.anomaly exDevB.deviceId Metric.temperature) ∧
      ((evaluateGlobal exInpC5 Lang.en (fun _ => {})).2
          (EventKey.anomaly exDevB.deviceId Metric.temperature)).lastSeenMs
        = some exInpC5.nowMs ∧
      ((evaluateGlobal exInpC5 Lang.en (fun _ => {})).2
          (EventKey.anomaly exDevB.deviceId Metric.temperature)).firstSeenMs =
        (if truthy ((applyAck (fun _ => {}) exInpC5.ackEventKey exInpC5.nowMs)
              (EventKey.anomaly exDevB.deviceId Metric.temperature)).firstSeenMs
         then ((applyAck (fun _ => {}) exInpC5.ackEventKey exInpC5.nowMs)
            (EventKey.anomaly exDevB.deviceId Metric.temperature)).firstSeenMs
         else some exInpC5.nowMs)) ∧
    (exInpC5.modalSnoozeMs ≤ exInpC5.nowMs - 1700000025000 →
      (((fun _ => ({} : EventState))
          (EventKey.anomaly exDevB.deviceId Metric.temperature)).lastFiredStage ≤ 2 ∨
        (((fun _ => ({} : EventState))
            (EventKey.anomaly exDevB.deviceId Metric.temperature)).lastFiredStage = 3 ∧
          ∃ fs, ((fun _ => ({} : EventState))
              (EventKey.anomaly exDevB.deviceId Metric.temperature)).firstSeenMs = some fs ∧
            fs ≠ 0 ∧ exInpC5.persistWindowMs ≤ exInpC5.nowMs - fs)) →
      ∃ c ∈ candidatesOf exInpC5 Lang.en (fun _ => {}),
        c.eventKey = EventKey.anomaly exDevB.deviceId Metric.temperature ∧
        ((fun _ => ({} : EventState))
            (EventKey.anomaly exDevB.deviceId Metric.temperature)).lastFiredStage
          ≤ c.stage)) :=
  ⟨⟨by decide, by decide, by decide, by decide, by decide, by decide⟩,
    snooze_suppresses_but_not_erases exInpC5 Lang.en (fun _ => {}) exDevB Metric.temperature
      1700000025000 (by decide) (by decide) (by decide) (by decide) (by decide) (by decide)⟩

/-- C6: when a device's offline age is below the warn threshold, the
device's offline event is cleared in that same cycle (`firstSeenMs`,
`lastSeenMs` to null, `lastFiredStage` to 0); and any later cycle that
again sees the device offline-active starts the event's `firstSeenMs` at
that cycle's own `nowMs` — the time of the new offline transition, not
the earlier one. -/
theorem offline_recovery_resets_first_seen (inp1 : GlobalInput) (browser1 : Lang)
    (s : Store) (d1 : Device) (ld : Int)
    (hd1 : d1 ∈ inp1.devices)
    (hids1 : (inp1.devices.map Device.deviceId).Nodup)
    (hld1 : d1.lastDataMs = some ld) (hldt : ld ≠ 0)
    (hage1 : inp1.nowMs - ld < inp1.warnMs) :
    (((evaluateGlobal inp1 browser1 s).2 (EventKey.offline d1.deviceId)).firstSeenMs = none ∧
      ((evaluateGlobal inp1 browser1 s).2 (EventKey.offline d1.deviceId)).lastSeenMs = none ∧
      ((evaluateGlobal inp1 browser1 s).2 (EventKey.offline d1.deviceId)).lastFiredStage
        = 0) ∧
    (∀ (inp2 : GlobalInput) (browser2 : Lang) (d2 : Device) (ld2 : Int),
      d2 ∈ inp2.devices → (inp2.devices.map Device.deviceId).Nodup →
      d2.deviceId = d1.deviceId → d2.lastDataMs = some ld2 → ld2 ≠ 0 →
      inp2.warnMs ≤ inp2.nowMs - ld2 →
      ((evaluateGlobal inp2 browser2 ((evaluateGlobal inp1 browser1 s).2)).2
          (EventKey.offline d1.deviceId)).firstSeenMs = some inp2.nowMs) := by
  have hld1t : truthy d1.lastDataMs = true := by
    rw [hld1]
    unfold truthy
    simp [hldt]
  have hage1' : ¬ inp1.nowMs - d1.lastDataMs.getD 0 ≥ inp1.warnMs := by
    rw [hld1]
    simp only [Option.getD_some]
    omega
  have hmem1 := offline_clear_step_mem (L := detectLang inp1.langMode browser1)
    hd1 hld1t hage1'
  have hclear : (evaluateGlobal inp1 browser1 s).2 (EventKey.offline d1.deviceId) =
      clearEv ((applyAck s inp1.ackEventKey inp1.nowMs) (EventKey.offline d1.deviceId)) := by
    rw [evaluateGlobal_snd, runGlobal_store_at hids1 hmem1 s]
    rfl
  refine ⟨⟨by rw [hclear]; rfl, by rw [hclear]; rfl, by rw [hclear]; rfl⟩, ?_⟩
  intro inp2 browser2 d2 ld2 hd2 hids2 hid2 hld2 hld2t hage2
  have hld2tt : truthy d2.lastDataMs = true := by
    rw [hld2]
    unfold truthy
    simp [hld2t]
  have hage2' : inp2.nowMs - d2.lastDataMs.getD 0 ≥ inp2.warnMs := by
    rw [hld2]
    simp only [Option.getD_some]
    omega
  have hmem2 := offline_aged_step_mem (L := detectLang inp2.langMode browser2)
    hd2 hld2tt hage2'
  rw [evaluateGlobal_snd, ← hid2, runGlobal_store_at hids2 hmem2 _]
  show (bookkeep inp2.cfg.nowMs
    ((applyAck ((evaluateGlobal inp1 browser1 s).2) inp2.ackEventKey inp2.nowMs)
      (EventKey.offline d2.deviceId))).firstSeenMs = some inp2.nowMs
  rw [bookkeep_firstSeen, applyAck_firstSeen, hid2, hclear]
  show (if truthy none then (none : Option Int) else some inp2.cfg.nowMs) = some inp2.nowMs
  rw [if_neg (by simp [truthy])]
  rfl

/-- Witness for C6 at a concrete two-cycle scenario. -/
def exInpC6a : GlobalInput :=
  { devices := [{ deviceId := "r", lastDataMs := some 602000 }], nowMs := 610000 }

/-- The second cycle: the same device gone silent past the warn
threshold. -/
def exInpC6b : GlobalInput :=
  { devices := [{ deviceId := "r", lastDataMs := some 602000 }], nowMs := 700000 }

/-- A store in which device `r`'s offline event has been running since
1000 (the earlier offline period). -/
def exStoreC6 : Store := fun k =>
  if k = EventKey.offline "r" then
    { firstSeenMs := some 1000, lastSeenMs := some 600000, lastFiredStage := 2 }
  else {}

theorem offline_recovery_resets_first_seen_witness :
    (({ deviceId := "r", lastDataMs := some 602000 } : Device) ∈ exInpC6a.devices ∧
      (exInpC6a.devices.map Device.deviceId).Nodup ∧
      ({ deviceId := "r", lastDataMs := some 602000 } : Device).lastDataMs = some 602000 ∧
      (602000 : Int) ≠ 0 ∧ exInpC6a.nowMs - 602000 < exInpC6a.warnMs) ∧
    ((((evaluateGlobal exInpC6a Lang.en exStoreC6).2 (EventKey.offline "r")).firstSeenMs
        = none ∧
      ((evaluateGlobal exInpC6a Lang.en exStoreC6).2 (EventKey.offline "r")).lastSeenMs
        = none ∧
      ((evaluateGlobal exInpC6a Lang.en exStoreC6).2 (EventKey.offline "r")).lastFiredStage
        = 0) ∧
    ((evaluateGlobal exInpC6b Lang.en
        ((evaluateGlobal exInpC6a Lang.en exStoreC6).2)).2
          (EventKey.offline "r")).firstSeenMs = some exInpC6b.nowMs) :=
  have h := offline_recovery_resets_first_seen exInpC6a Lang.en exStoreC6
    { deviceId := "r", lastDataMs := some 602000 } 602000
    (by decide) (by decide) rfl (by decide) (by decide)
  ⟨⟨by decide, by decide, rfl, by decide, by decide⟩,
    ⟨h.1, h.2 exInpC6b Lang.en { deviceId := "r", lastDataMs := some 602000 } 602000
      (by decide) (by decide) rfl rfl (by decide) (by decide)⟩⟩

/-- C7: a device whose last-known-data time is null is treated as
maximally offline: unless its offline key is snoozed, the cycle collects
a candidate for it at stage 2 / level modal whose text is the
offline-alert message formatted from age `alertMs + 1` — the device is
not skipped. -/
theorem null_lastData_maximally_offline_candidate (inp : GlobalInput) (browser : Lang)
    (s : Store) (d : Device)
    (hd : d ∈ inp.devices) (hnull : d.lastDataMs = none)
    (hns : snoozedAt ((applyAck s inp.ackEventKey inp.nowMs)
        (EventKey.offline d.deviceId)).lastAckMs inp.nowMs inp.modalSnoozeMs = false) :
    ∃ c ∈ candidatesOf inp browser s,
      c.eventKey = EventKey.offline d.deviceId ∧ c.stage = 2 ∧ c.level = Level.modal ∧
      c.text = buildOfflineEvent (effectiveName d) (inp.alertMs + 1) inp.alertMs
        (detectLang inp.langMode browser) ∧
      c.text = Msg.offlineAlert (detectLang inp.langMode browser) (effectiveName d)
        (((inp.alertMs + 1).fdiv 1000).fdiv 60) (((inp.alertMs + 1).fdiv 1000).tmod 60) := by
  have hln : truthy d.lastDataMs = false := by
    rw [hnull]
    rfl
  have hmem := offline_nodata_step_mem (L := detectLang inp.langMode browser) hd hln
  have htext : buildOfflineEvent (effectiveName d) (inp.alertMs + 1) inp.alertMs
      (detectLang inp.langMode browser) =
      Msg.offlineAlert (detectLang inp.langMode browser) (effectiveName d)
        (((inp.alertMs + 1).fdiv 1000).fdiv 60) (((inp.alertMs + 1).fdiv 1000).tmod 60) := by
    unfold buildOfflineEvent
    rw [if_pos (by omega)]
  obtain ⟨c, hcmem, hP⟩ := runSteps_mem_cand (P := fun c =>
      c.eventKey = EventKey.offline d.deviceId ∧ c.stage = 2 ∧ c.level = Level.modal ∧
      c.text = buildOfflineEvent (effectiveName d) (inp.alertMs + 1) inp.alertMs
        (detectLang inp.langMode browser) ∧
      c.text = Msg.offlineAlert (detectLang inp.langMode browser) (effectiveName d)
        (((inp.alertMs + 1).fdiv 1000).fdiv 60) (((inp.alertMs + 1).fdiv 1000).tmod 60))
    (fun p hp => (allSteps_props inp (detectLang inp.langMode browser) p hp).1) hmem
    (applyAck s inp.ackEventKey inp.nowMs)
    (fun st hst => by
      refine ⟨{ stage := 2, level := .modal, eventKey := EventKey.offline d.deviceId
                text := buildOfflineEvent (effectiveName d) (inp.alertMs + 1) inp.alertMs
                  (detectLang inp.langMode browser)
                deviceName := effectiveName d, metric := .offline
                seenSinceMs := (bookkeep inp.cfg.nowMs st).firstSeenMs }, ?_,
        rfl, rfl, rfl, rfl, htext⟩
      unfold offlineNoDataF
      dsimp only
      rw [if_neg (by
        show ¬ snoozedAt (bookkeep inp.cfg.nowMs st).lastAckMs inp.cfg.nowMs
          inp.cfg.modalSnoozeMs = true
        rw [bookkeep_lastAck, hst, cfg_nowMs, cfg_modalSnoozeMs, hns]
        simp)]
      rfl)
  rw [candidatesOf_eq]
  exact ⟨c, hcmem, hP⟩

/-- A fleet with one never-seen device and a pre-acked other key. -/
def exInpC7 : GlobalInput :=
  { devices := [{ deviceId := "n" }], nowMs := 50000 }

theorem null_lastData_maximally_offline_candidate_witness :
    (({ deviceId := "n" } : Device) ∈ exInpC7.devices ∧
      ({ deviceId := "n" } : Device).lastDataMs = none ∧
      snoozedAt ((applyAck (fun _ => {}) exInpC7.ackEventKey exInpC7.nowMs)
          (EventKey.offline "n")).lastAckMs exInpC7.nowMs exInpC7.modalSnoozeMs = false) ∧
    ∃ c ∈ candidatesOf exInpC7 Lang.en (fun _ => {}),
      c.eventKey = EventKey.offline ({ deviceId := "n" } : Device).deviceId ∧
      c.stage = 2 ∧ c.level = Level.modal ∧
      c.text = buildOfflineEvent (effectiveName { deviceId := "n" })
        (exInpC7.alertMs + 1) exInpC7.alertMs (detectLang exInpC7.langMode Lang.en) ∧
      c.text = Msg.offlineAlert (detectLang exInpC7.langMode Lang.en)
        (effectiveName { deviceId := "n" })
        (((exInpC7.alertMs + 1).fdiv 1000).fdiv 60)
        (((exInpC7.alertMs + 1).fdiv 1000).tmod 60) :=
  ⟨⟨by decide, rfl, by decide⟩,
    null_lastData_maximally_offline_candidate exInpC7 Lang.en (fun _ => {})
      { deviceId := "n" } (by decide) rfl (by decide)⟩

/-- C10: acknowledging a never-observed event key creates a fresh entry
whose only populated field is `lastAckMs`; from then on, any evaluation
within the snooze window of that acknowledgement — whatever condition
becomes active for the key — produces no candidate for it, and the
stored acknowledgement survives the cycle. -/
theorem preemptive_ack_snoozes_unseen_event (s : Store) (k : EventKey) (t0 : Int)
    (ht0 : t0 ≠ 0) (hfresh : s k = {}) :
    ((applyAck s (some k) t0) k = { lastAckMs := some t0 }) ∧
    (∀ (inp : GlobalInput) (browser : Lang) (s2 : Store),
      (s2 k).lastAckMs = some t0 → inp.ackEventKey = none →
      inp.nowMs - t0 < inp.modalSnoozeMs →
      (∀ c ∈ candidatesOf inp browser s2, c.eventKey ≠ k) ∧
      ((evaluateGlobal inp browser s2).2 k).lastAckMs = some t0) := by
  constructor
  · have h1 : (applyAck s (some k) t0) k = { s k with lastAckMs := some t0 } :=
      storeSet_same s k _
    rw [h1, hfresh]
  · intro inp browser s2 hs2 hacknone hlt
    have hsn : snoozedAt ((applyAck s2 inp.ackEventKey inp.nowMs) k).lastAckMs
        inp.nowMs inp.modalSnoozeMs = true := by
      rw [hacknone, applyAck_none, hs2]
      unfold snoozedAt
      simp [ht0, hlt]
    constructor
    · intro c hc
      refine runSteps_snoozed_no_cand
        (fun p hp => (allSteps_props inp (detectLang inp.langMode browser) p hp).1)
        (fun p hp => (allSteps_props inp (detectLang inp.langMode browser) p hp).2.1)
        (fun p hp => (allSteps_props inp (detectLang inp.langMode browser) p hp).2.2.1)
        (applyAck s2 inp.ackEventKey inp.nowMs) hsn c ?_
      rw [candidatesOf_eq] at hc
      exact hc
    · rw [evaluateGlobal_snd]
      unfold runGlobal
      rw [runSteps_ack_preserved
        (fun p hp => (allSteps_props inp (detectLang inp.langMode browser) p hp).1) k]
      rw [hacknone, applyAck_none, hs2]

/-- Witness for C10 at a concrete input: key `p:offline` is acknowledged
at 1000, then a cycle at 2000 with the device offline-active produces no
candidate for it. -/
def exInpC10 : GlobalInput :=
  { devices := [{ deviceId := "p" }], nowMs := 2000 }

theorem preemptive_ack_snoozes_unseen_event_witness :
    ((1000 : Int) ≠ 0 ∧ (fun _ => ({} : EventState)) (EventKey.offline "p") = {} ∧
      ((applyAck (fun _ => {}) (some (EventKey.offline "p")) 1000)
          (EventKey.offline "p")).lastAckMs = some 1000 ∧
      exInpC10.ackEventKey = none ∧ exInpC10.nowMs - 1000 < exInpC10.modalSnoozeMs) ∧
    ((applyAck (fun _ => {}) (some (EventKey.offline "p")) 1000) (EventKey.offline "p")
      = { lastAckMs := some 1000 }) ∧
    ((∀ c ∈ candidatesOf exInpC10 Lang.en
        (applyAck (fun _ => {}) (some (EventKey.offline "p")) 1000),
        c.eventKey ≠ EventKey.offline "p") ∧
      ((evaluateGlobal exInpC10 Lang.en
          (applyAck (fun _ => {}) (some (EventKey.offline "p")) 1000)).2
            (EventKey.offline "p")).lastAckMs = some 1000) :=
  have h := preemptive_ack_snoozes_unseen_event (fun _ => {}) (EventKey.offline "p") 1000
    (by decide) rfl
  ⟨⟨by decide, rfl, by decide, rfl, by decide⟩,
    h.1,
    h.2 exInpC10 Lang.en (applyAck (fun _ => {}) (some (EventKey.offline "p")) 1000)
      (by decide) rfl (by decide)⟩

/-! ### C8: the global engine reads a series only through its deltas -/

/-- Two device snapshots that agree on identity, last-data time, and —
for every metric — on everything the global anomaly detector reads from
the series: the sparse guard, the last step delta and the two windowed
deltas. -/
def devRel (d1 d2 : Device) : Prop :=
  d1.deviceId = d2.deviceId ∧ d1.deviceName = d2.deviceName ∧
  d1.lastDataMs = d2.lastDataMs ∧
  ∀ m : Metric, anomalySig (series d1.rows m) = anomalySig (series d2.rows m)

/-- Two engine inputs equal except possibly in their raw rows, which
carry the same delta signatures. -/
def inputRel (i1 i2 : GlobalInput) : Prop :=
  i1.cfg = i2.cfg ∧ i1.langMode = i2.langMode ∧ i1.ackEventKey = i2.ackEventKey ∧
  List.Forall₂ devRel i1.devices i2.devices

theorem deviceSteps_congr (cfg : Cfg) (L : Lang) (d1 d2 : Device) (h : devRel d1 d2) :
    deviceSteps cfg L d1 = deviceSteps cfg L d2 := by
  obtain ⟨hid, hname, hld, hsig⟩ := h
  have hn : effectiveName d1 = effectiveName d2 := by
    unfold effectiveName
    rw [hid, hname]
  unfold deviceSteps anomalyF
  dsimp only
  simp only [metricOrder, List.map_cons, List.map_nil]
  rw [hn, hid, hld, hsig Metric.temperature, hsig Metric.humidity, hsig Metric.pressure,
    hsig Metric.light]

theorem evaluateGlobal_congr (i1 i2 : GlobalInput) (browser : Lang) (s : Store)
    (h : inputRel i1 i2) : evaluateGlobal i1 browser s = evaluateGlobal i2 browser s := by
  obtain ⟨hcfg, hlm, hak, hdev⟩ := h
  have hnow : i1.nowMs = i2.nowMs := by
    have h' := congrArg Cfg.nowMs hcfg
    rw [cfg_nowMs, cfg_nowMs] at h'
    exact h'
  have hmap : ∀ (l1 l2 : List Device), List.Forall₂ devRel l1 l2 →
      l1.map (deviceSteps i2.cfg (detectLang i2.langMode browser)) =
      l2.map (deviceSteps i2.cfg (detectLang i2.langMode browser)) := by
    intro l1 l2 hrel
    induction hrel with
    | nil => rfl
    | cons hr _ ih =>
        simp only [List.map_cons]
        rw [deviceSteps_congr _ _ _ _ hr, ih]
  have hsteps : allSteps i1 (detectLang i1.langMode browser) =
      allSteps i2 (detectLang i2.langMode browser) := by
    unfold allSteps
    rw [hlm, hcfg]
    exact congrArg List.flatten (hmap _ _ hdev)
  unfold evaluateGlobal runGlobal
  dsimp only
  rw [hsteps, hlm, hak, hnow]

/-- Twelve points whose middle values are flat: the last value is a
strong dispersion outlier (z-score fires). -/
def zPtsA : List Point :=
  [⟨1, 0⟩, ⟨10, 0⟩, ⟨20, 0⟩, ⟨30, 0⟩, ⟨40, 0⟩, ⟨50, 0⟩, ⟨60, 0⟩, ⟨70, 0⟩, ⟨80, 0⟩,
    ⟨90, 0⟩, ⟨100, 0⟩, ⟨110, 10⟩]

/-- The same first point, last two points and window endpoints — hence
the same delta signature — but noisy middles: the z-score does not
fire. -/
def zPtsB : List Point :=
  [⟨1, 0⟩, ⟨10, 20⟩, ⟨20, -20⟩, ⟨30, 20⟩, ⟨40, -20⟩, ⟨50, 20⟩, ⟨60, -20⟩, ⟨70, 20⟩,
    ⟨80, -20⟩, ⟨90, 20⟩, ⟨100, 0⟩, ⟨110, 10⟩]

unseal Rat.add Rat.sub Rat.mul Rat.inv in
/-- C8: the global engine's result is a function of the per-metric delta
signatures (step delta, 5- and 10-minute windowed deltas, sparse-data
guard) alone — two inputs equal except for series with identical
signatures produce identical results — while the z-score dispersion
check genuinely varies on signature-equal series (it fires on one and
not the other), so it can never influence a global candidate, toast or
modal. -/
theorem zscore_independent_global_result :
    (∀ (i1 i2 : GlobalInput) (browser : Lang) (s : Store),
      inputRel i1 i2 → evaluateGlobal i1 browser s = evaluateGlobal i2 browser s) ∧
    (∃ p1 p2 : List Point, anomalySig p1 = anomalySig p2 ∧
      zAnomaly p1 (14 / 5) = true ∧ zAnomaly p2 (14 / 5) = false) := by
  constructor
  · intro i1 i2 browser s h
    exact evaluateGlobal_congr i1 i2 browser s h
  · exact ⟨zPtsA, zPtsB, by decide, by decide, by decide⟩

/-- Twelve temperature rows, flat middles. -/
def zRowsA : List Row :=
  [ { temperature := some 0, timestamp := some 1700000000000 },
    { temperature := some 0, timestamp := some 1700000010000 },
    { temperature := some 0, timestamp := some 1700000020000 },
    { temperature := some 0, timestamp := some 1700000030000 },
    { temperature := some 0, timestamp := some 1700000040000 },
    { temperature := some 0, timestamp := some 1700000050000 },
    { temperature := some 0, timestamp := some 1700000060000 },
    { temperature := some 0, timestamp := some 1700000070000 },
    { temperature := some 0, timestamp := some 1700000080000 },
    { temperature := some 0, timestamp := some 1700000090000 },
    { temperature := some 0, timestamp := some 1700000100000 },
    { temperature := some 10, timestamp := some 1700000110000 } ]

/-- The same timestamps, first value and last two values, but noisy
middles. -/
def zRowsB : List Row :=
  [ { temperature := some 0, timestamp := some 1700000000000 },
    { temperature := some 20, timestamp := some 1700000010000 },
    { temperature := some (-20), timestamp := some 1700000020000 },
    { temperature := some 20, timestamp := some 1700000030000 },
    { temperature := some (-20), timestamp := some 1700000040000 },
    { temperature := some 20, timestamp := some 1700000050000 },
    { temperature := some (-20), timestamp := some 1700000060000 },
    { temperature := some 20, timestamp := some 1700000070000 },
    { temperature := some (-20), timestamp := some 1700000080000 },
    { temperature := some 20, timestamp := some 1700000090000 },
    { temperature := some 0, timestamp := some 1700000100000 },
    { temperature := some 10, timestamp := some 1700000110000 } ]

def exInpZ1 : GlobalInput :=
  { devices := [{ deviceId := "z", lastDataMs := some 1700000110000, rows := zRowsA }]
    nowMs := 1700000115000 }

def exInpZ2 : GlobalInput :=
  { devices := [{ deviceId := "z", lastDataMs := some 1700000110000, rows := zRowsB }]
    nowMs := 1700000115000 }

unseal Rat.add Rat.sub Rat.mul Rat.inv in
/-- Witness for C8: two concrete inputs differing only in row values
with equal delta signatures evaluate identically. -/
theorem zscore_independent_global_result_witness :
    inputRel exInpZ1 exInpZ2 ∧
    evaluateGlobal exInpZ1 Lang.en (fun _ => {}) =
      evaluateGlobal exInpZ2 Lang.en (fun _ => {}) :=
  have hrel : inputRel exInpZ1 exInpZ2 :=
    ⟨rfl, rfl, rfl, by
      refine List.Forall₂.cons ⟨rfl, rfl, rfl, ?_⟩ List.Forall₂.nil
      intro m
      cases m <;> decide⟩
  ⟨hrel, zscore_independent_global_result.1 exInpZ1 exInpZ2 Lang.en (fun _ => {}) hrel⟩

end EnvDash
